import Mathlib

/-!
Verification development for the skills-repository maintenance script
(`scripts` source embedded in the repository): submodule `init`, `sync`
and `check` operations over a model filesystem, plus the static registry
from `meta.ts`.

Paths are modelled as lists of components; `join` becomes list append and
the `fullPath.replace(sourceSkillPath, '')` relative-path computation
becomes a prefix drop.  External effects (git commands, the prompt
library) are supplied by environment records.
-/

abbrev FPath := List String

/-- Model filesystem: file entries (path, content) and explicitly created
directories.  A directory also exists implicitly when a file lives
strictly below it. -/
structure FS where
  files : List (FPath × String)
  dirs : List FPath
deriving DecidableEq

def FS.lookupFile (fs : FS) (q : FPath) : Option String :=
  (fs.files.find? (fun e => e.1 == q)).map (fun e => e.2)

def FS.isFileB (fs : FS) (q : FPath) : Bool := (fs.lookupFile q).isSome

def FS.isDirB (fs : FS) (q : FPath) : Bool :=
  fs.dirs.any (fun d => d == q) || fs.files.any (fun e => q.isPrefixOf e.1 && !(e.1 == q))

/-- `existsSync`. -/
def FS.existsB (fs : FS) (q : FPath) : Bool := fs.isFileB q || fs.isDirB q

/-- `writeFileSync` / `cpSync` to a destination path. -/
def FS.writeFile (fs : FS) (q : FPath) (c : String) : FS :=
  ⟨(q, c) :: fs.files.filter (fun e => !(e.1 == q)), fs.dirs⟩

/-- `rmSync(q, { recursive: true })`: removes `q` and everything below it. -/
def FS.rmRec (fs : FS) (q : FPath) : FS :=
  ⟨fs.files.filter (fun e => !(q.isPrefixOf e.1)), fs.dirs.filter (fun d => !(q.isPrefixOf d))⟩

/-- All prefixes of a path, `[]` included. -/
def pathInits : FPath → List FPath
  | [] => [[]]
  | a :: t => [] :: (pathInits t).map (fun x => a :: x)

/-- `mkdirSync(q, { recursive: true })`: creates `q` and its ancestors. -/
def FS.mkdirRec (fs : FS) (q : FPath) : FS := ⟨fs.files, pathInits q ++ fs.dirs⟩

/-- `readdirSync(q, { recursive: true, withFileTypes: true })` filtered to
regular files: every file entry strictly below `q`. -/
def filesUnder (fs : FS) (q : FPath) : List (FPath × String) :=
  fs.files.filter (fun e => q.isPrefixOf e.1 && !(e.1 == q))

/-- `hay.includes(pat)` on character lists (JS `String.prototype.includes`). -/
def strHas (hay pat : List Char) : Bool :=
  match hay with
  | [] => pat.isEmpty
  | _ :: t => pat.isPrefixOf hay || strHas t pat

/-- `submoduleExists` from the script: substring probe of `.gitmodules`
for the literal text `path = <p>`.  (`readFileSync` on a path that exists
but is not a regular file would throw in Node; that edge is not
modelled.) -/
def submoduleExists (fs : FS) (p : String) : Bool :=
  if fs.existsB [".gitmodules"] = false then false
  else
    match fs.lookupFile [".gitmodules"] with
    | some content => strHas content.data ("path = " ++ p).data
    | none => false

structure Project where
  name : String
  url : String
  ptype : String
  lpath : String
deriving DecidableEq

structure VendorConfig where
  source : String
  official : Bool
  skills : List (String × String)
deriving DecidableEq

/-- The candidate list built at the top of `initSubmodules`. -/
def allProjects (subs : List (String × String)) (vends : List (String × VendorConfig)) :
    List Project :=
  subs.map (fun pr => ⟨pr.1, pr.2, "source", "sources/" ++ pr.1⟩)
    ++ vends.map (fun pr => ⟨pr.1, pr.2.source, "vendor", "vendor/" ++ pr.1⟩)

/-- External collaborators of `initSubmodules`: the prompt library and the
`git submodule add` command (its success and its effect on the tree), plus
the possibility that `mkdirSync` itself throws. -/
structure InitEnv where
  cancel : Bool
  selects : Project → Bool
  addOk : Project → Bool
  addEffect : Project → FS → FS
  mkdirFails : FPath → Bool

structure InitOut where
  fs : FS
  attempted : List String
  added : List String
  prompted : Bool
deriving DecidableEq

/-- Split a character list at `/` (the separator of the constructed local
paths). -/
def splitSlash : List Char → List (List Char)
  | [] => [[]]
  | c :: t =>
    match splitSlash t with
    | [] => [[c]]
    | h :: r => if c = '/' then [] :: h :: r else (c :: h) :: r

/-- `dirname(project.path)` for the slash-joined local paths the script
constructs. -/
def parentDirOf (lp : String) : FPath :=
  ((splitSlash lp.data).map (fun cs => String.mk cs)).dropLast

def joinPath : FPath → String
  | [] => ""
  | [x] => x
  | x :: y :: t => x ++ "/" ++ joinPath (y :: t)

/-- The per-project loop of `initSubmodules`.  `mkdirSync` sits outside the
try/catch: its failure propagates as an exception.  A `git submodule add`
failure is caught and processing continues. -/
def runAdds (env : InitEnv) : FS → List Project → Except String (FS × List String × List String)
  | fs, [] => .ok (fs, [], [])
  | fs, pr :: rest =>
    if fs.existsB (parentDirOf pr.lpath) = false ∧ env.mkdirFails (parentDirOf pr.lpath) = true
    then
      .error ("mkdir failed: " ++ joinPath (parentDirOf pr.lpath))
    else
      if env.addOk pr then
        match runAdds env (env.addEffect pr (if fs.existsB (parentDirOf pr.lpath) then fs
            else fs.mkdirRec (parentDirOf pr.lpath))) rest with
        | .ok (f, att, ad) => .ok (f, pr.name :: att, pr.name :: ad)
        | .error e => .error e
      else
        match runAdds env (if fs.existsB (parentDirOf pr.lpath) then fs
            else fs.mkdirRec (parentDirOf pr.lpath)) rest with
        | .ok (f, att, ad) => .ok (f, pr.name :: att, ad)
        | .error e => .error e

def initSubmodules (env : InitEnv) (subs : List (String × String))
    (vends : List (String × VendorConfig)) (fs : FS) : Except String InitOut :=
  if ((allProjects subs vends).filter (fun pr => !(submoduleExists fs pr.lpath))).isEmpty then
    .ok ⟨fs, [], [], false⟩
  else if env.cancel then .ok ⟨fs, [], [], true⟩
  else
    match runAdds env fs (((allProjects subs vends).filter
        (fun pr => !(submoduleExists fs pr.lpath))).filter env.selects) with
    | .ok (f, att, ad) => .ok ⟨f, att, ad, true⟩
    | .error e => .error e

/-- External collaborators of `syncSubmodules`: the global
`git submodule update --remote --merge` (its success and its effect on the
checkouts), `git rev-parse HEAD` per directory, and the current date. -/
structure SyncEnv where
  update : FS → Option FS
  gitSha : FPath → Option String
  today : String

def vendorPathOf (vn : String) : FPath := ["vendor", vn]
def vendorSkillsPathOf (vn : String) : FPath := ["vendor", vn, "skills"]
def srcPathOf (vn sn : String) : FPath := ["vendor", vn, "skills", sn]
def outPathOf (outN : String) : FPath := ["skills", outN]

def licenseNames : List String :=
  ["LICENSE", "LICENSE.md", "LICENSE.txt", "license", "license.md", "license.txt"]

/-- First license candidate present at the vendor root, and its content.
(The script tests `existsSync`; a directory by one of these names would
make `cpSync` throw, which is not modelled, so the probe here is
file-existence.) -/
def findLicense (fs : FS) (vp : FPath) : Option String :=
  match licenseNames.find? (fun n => fs.isFileB (vp ++ [n])) with
  | some n => fs.lookupFile (vp ++ [n])
  | none => none

/-- JS template-literal rendering of `sha` in the `SYNC.md` body: `null`
interpolates as the literal text `null`. -/
def shaField : Option String → String
  | some s => s
  | none => "null"

def syncContent (vn sn : String) (sha : Option String) (date : String) : String :=
  "# Sync Info\n\n- **Source:** `vendor/" ++ vn ++ "/skills/" ++ sn
    ++ "`\n- **Git SHA:** `" ++ shaField sha ++ "`\n- **Synced:** " ++ date ++ "\n"

/-- One iteration of the copy loop: relative path by prefix drop, ensure
the destination directory, copy the file. -/
def copyStep (sp : FPath) (outN : String) (acc : FS) (e : FPath × String) : FS :=
  let dest := outPathOf outN ++ e.1.drop sp.length
  let destDir := dest.dropLast
  let acc1 := if acc.existsB destDir then acc else acc.mkdirRec destDir
  acc1.writeFile dest e.2

/-- `if (existsSync(outputPath)) rmSync(outputPath, { recursive: true })`. -/
def pairRm (fs : FS) (op : FPath) : FS := if fs.existsB op then fs.rmRec op else fs

/-- The copy loop over every file found below the source skill directory. -/
def pairCopy (fs : FS) (sp : FPath) (outN : String) : FS :=
  (filesUnder fs sp).foldl (copyStep sp outN) fs

/-- Copy the first root license candidate (if any) to `<output>/LICENSE.md`. -/
def pairLicense (fs : FS) (vn : String) (outN : String) : FS :=
  match findLicense fs (vendorPathOf vn) with
  | some c => fs.writeFile (outPathOf outN ++ ["LICENSE.md"]) c
  | none => fs

/-- The mutating steps for one pair: remove/recreate output, copy files,
inject license, write `SYNC.md`. -/
def syncPairBody (env : SyncEnv) (vn : String) (fs : FS) (sn outN : String) : FS :=
  (pairLicense
      (pairCopy ((pairRm fs (outPathOf outN)).mkdirRec (outPathOf outN)) (srcPathOf vn sn) outN)
      vn outN).writeFile
    (outPathOf outN ++ ["SYNC.md"]) (syncContent vn sn (env.gitSha (vendorPathOf vn)) env.today)

/-- One `(sourceSkillName, outputSkillName)` pair of the sync loop.
Returns the new tree and whether the pair was synced (`false` = skipped
because the source skill directory is absent). -/
def syncPair (env : SyncEnv) (vn : String) (fs : FS) (sn outN : String) : FS × Bool :=
  if fs.existsB (srcPathOf vn sn) = false then (fs, false)
  else (syncPairBody env vn fs sn outN, true)

structure PairOutcome where
  vendor : String
  src : String
  out : String
  synced : Bool
deriving DecidableEq

def syncPairs (env : SyncEnv) (vn : String) : FS → List (String × String) → FS × List PairOutcome
  | fs, [] => (fs, [])
  | fs, (sn, outN) :: rest =>
    let r1 := syncPair env vn fs sn outN
    let r2 := syncPairs env vn r1.1 rest
    (r2.1, ⟨vn, sn, outN, r1.2⟩ :: r2.2)

def syncVendors (env : SyncEnv) : FS → List (String × VendorConfig) → FS × List PairOutcome × List String
  | fs, [] => (fs, [], [])
  | fs, (vn, cfg) :: rest =>
    if fs.existsB (vendorPathOf vn) = false then
      let r := syncVendors env fs rest
      (r.1, r.2.1, ("Vendor submodule not found: " ++ vn) :: r.2.2)
    else if fs.existsB (vendorSkillsPathOf vn) = false then
      let r := syncVendors env fs rest
      (r.1, r.2.1, ("No skills directory in vendor/" ++ vn ++ "/skills/") :: r.2.2)
    else
      let rp := syncPairs env vn fs cfg.skills
      let r := syncVendors env rp.1 rest
      (r.1, rp.2 ++ r.2.1, r.2.2)

structure SyncResult where
  fs : FS
  updated : Bool
  outcomes : List PairOutcome
  warns : List String
deriving DecidableEq

/-- `syncSubmodules`: the global submodule update is the one fatal step;
on its failure the function reports and returns without touching any
vendor skill directory. -/
def syncSubmodules (env : SyncEnv) (vends : List (String × VendorConfig)) (fs : FS) :
    SyncResult :=
  match env.update fs with
  | none => ⟨fs, false, [], ["Failed to update submodules"]⟩
  | some fs1 =>
    let r := syncVendors env fs1 vends
    ⟨r.1, true, r.2.1, r.2.2⟩

/-- Leading decimal digits. -/
def leadDigits (cs : List Char) : List Char := cs.takeWhile (fun c => c.isDigit)

def digitsToNat (cs : List Char) : Nat := cs.foldl (fun a c => a * 10 + (c.toNat - 48)) 0

/-- `Number.parseInt(s)` (radix 10) on already-trimmed command output:
optional sign then leading digits; `none` stands for `NaN`. -/
def jsParseInt (s : String) : Option Int :=
  match s.data with
  | '-' :: rest =>
    match leadDigits rest with
    | [] => none
    | ds => some (-(digitsToNat ds : Int))
  | '+' :: rest =>
    match leadDigits rest with
    | [] => none
    | ds => some (digitsToNat ds : Int)
  | cs =>
    match leadDigits cs with
    | [] => none
    | ds => some (digitsToNat ds : Int)

structure Update where
  name : String
  utype : String
  behind : Int
deriving DecidableEq

/-- External collaborators of `checkUpdates`: the global fetch and the
per-directory `git rev-list HEAD..@{u} --count` probe (`execSafe`: `none`
on any failure, e.g. no tracking ref). -/
structure CheckEnv where
  fetchOk : Bool
  behind : FPath → Option String

/-- The `behind && Number.parseInt(behind) > 0` test: a `null` or empty
probe result is falsy, then the parsed count must be strictly positive. -/
def behindPositive : Option String → Option Int
  | none => none
  | some s =>
    if s == "" then none
    else
      match jsParseInt s with
      | some n => if 0 < n then some n else none
      | none => none

def sourceUpdates (env : CheckEnv) (fs : FS) (subs : List (String × String)) : List Update :=
  subs.filterMap (fun pr =>
    if fs.existsB ["sources", pr.1] = false then none
    else (behindPositive (env.behind ["sources", pr.1])).map (fun n => ⟨pr.1, "source", n⟩))

/-- The label `check` prints for a vendor: its name and the output skill
names. -/
def vendorLabel (pr : String × VendorConfig) : String :=
  pr.1 ++ " (" ++ String.intercalate ", " (pr.2.skills.map (fun s => s.2)) ++ ")"

def vendorUpdates (env : CheckEnv) (fs : FS) (vends : List (String × VendorConfig)) : List Update :=
  vends.filterMap (fun pr =>
    if fs.existsB ["vendor", pr.1] = false then none
    else (behindPositive (env.behind ["vendor", pr.1])).map
      (fun n => ⟨vendorLabel pr, "vendor", n⟩))

/-- `checkUpdates`: `none` models the early return after a failed global
fetch; otherwise the collected report list. -/
def checkUpdates (env : CheckEnv) (subs : List (String × String))
    (vends : List (String × VendorConfig)) (fs : FS) : Option (List Update) :=
  if env.fetchOk = false then none
  else some (sourceUpdates env fs subs ++ vendorUpdates env fs vends)

/-- The static registry of `meta.ts`: repositories to generate skills from. -/
def metaSubmodules : List (String × String) :=
  [("vue", "https://github.com/vuejs/docs"),
   ("nuxt", "https://github.com/nuxt/nuxt"),
   ("vite", "https://github.com/vitejs/vite"),
   ("unocss", "https://github.com/unocss/unocss")]

/-- The static registry of `meta.ts`: vendor repositories with skill maps. -/
def metaVendors : List (String × VendorConfig) :=
  [("slidev", ⟨"https://github.com/slidevjs/slidev", true, [("slidev", "slidev")]⟩),
   ("vueuse", ⟨"https://github.com/vueuse/skills", true, [("vueuse-functions", "vueuse")]⟩),
   ("vue-best-practices",
     ⟨"https://github.com/hyf0/vue-skills", false, [("vue-best-practices", "vue-best-practices")]⟩)]

/-! ### Generic list helpers -/

theorem ipo_iff {l₁ l₂ : FPath} : l₁.isPrefixOf l₂ = true ↔ l₁ <+: l₂ :=
  List.isPrefixOf_iff_prefix

theorem ipo_self_append (l r : FPath) : l.isPrefixOf (l ++ r) = true :=
  ipo_iff.mpr (List.prefix_append l r)

theorem ipo_refl (l : FPath) : l.isPrefixOf l = true := ipo_iff.mpr List.prefix_rfl

theorem ipo_trans {a b c : FPath} (h1 : a.isPrefixOf b = true) (h2 : b.isPrefixOf c = true) :
    a.isPrefixOf c = true := ipo_iff.mpr ((ipo_iff.mp h1).trans (ipo_iff.mp h2))

theorem find_over_filter {g : FPath × String → Bool} {q : FPath} (hg : ∀ e, e.1 = q → g e = true) :
    ∀ l : List (FPath × String),
      (l.filter g).find? (fun e => e.1 == q) = l.find? (fun e => e.1 == q)
  | [] => rfl
  | e :: t => by
    by_cases he : e.1 = q
    · have hge : g e = true := hg e he
      simp [List.filter_cons, hge, List.find?_cons, he, find_over_filter hg t]
    · have : (e.1 == q) = false := by simp [he]
      by_cases hge : g e = true
      · simp [List.filter_cons, hge, List.find?_cons, this, find_over_filter hg t]
      · simp only [Bool.not_eq_true] at hge
        simp [List.filter_cons, hge, List.find?_cons, this, find_over_filter hg t]

theorem any_over_filter {α : Type} {g h : α → Bool} (himp : ∀ e, h e = true → g e = true) :
    ∀ l : List α, (l.filter g).any h = l.any h
  | [] => rfl
  | e :: t => by
    by_cases hh : h e = true
    · simp [List.filter_cons, himp e hh, List.any_cons, hh, any_over_filter himp t]
    · simp only [Bool.not_eq_true] at hh
      by_cases hge : g e = true
      · simp [List.filter_cons, hge, List.any_cons, hh, any_over_filter himp t]
      · simp only [Bool.not_eq_true] at hge
        simp [List.filter_cons, hge, List.any_cons, hh, any_over_filter himp t]

theorem filter_over_filter {α : Type} {g h : α → Bool} (himp : ∀ e, h e = true → g e = true) :
    ∀ l : List α, (l.filter g).filter h = l.filter h
  | [] => rfl
  | e :: t => by
    by_cases hh : h e = true
    · simp [List.filter_cons, himp e hh, hh, filter_over_filter himp t]
    · simp only [Bool.not_eq_true] at hh
      by_cases hge : g e = true
      · simp [List.filter_cons, hge, hh, filter_over_filter himp t]
      · simp only [Bool.not_eq_true] at hge
        simp [List.filter_cons, hge, hh, filter_over_filter himp t]

theorem ipo_of_mem_pathInits : ∀ {p x : FPath}, x ∈ pathInits p → x.isPrefixOf p = true := by
  intro p
  induction p with
  | nil =>
    intro x hx
    simp [pathInits] at hx
    simp [hx]
  | cons a t ih =>
    intro x hx
    simp [pathInits] at hx
    rcases hx with rfl | ⟨y, hy, rfl⟩
    · simp
    · simp [List.isPrefixOf_cons₂, ih hy]

theorem eq_of_skills_head {outN outN' : String} {t : FPath}
    (h : (outPathOf outN).isPrefixOf ("skills" :: outN' :: t) = true) : outN = outN' := by
  obtain ⟨u, hu⟩ := ipo_iff.mp h
  simp [outPathOf] at hu
  exact hu.1

theorem prefix_cases_two {b : String} {t : FPath} :
    ∀ {x : FPath}, x.isPrefixOf ("skills" :: b :: t) = true →
      x = [] ∨ x = ["skills"] ∨ (["skills", b] : FPath).isPrefixOf x = true := by
  intro x h
  match x with
  | [] => exact Or.inl rfl
  | [a] =>
    refine Or.inr (Or.inl ?_)
    simp [List.isPrefixOf_cons₂] at h
    simp [h]
  | a :: c :: y =>
    refine Or.inr (Or.inr ?_)
    simp [List.isPrefixOf_cons₂] at h
    simp [List.isPrefixOf_cons₂, h.1, h.2.1]

/-! ### Area agreement between trees -/

/-- Two trees agree on the part of the namespace selected by `K`. -/
def AgreeOn (K : FPath → Bool) (a b : FS) : Prop :=
  b.files.filter (fun e => K e.1) = a.files.filter (fun e => K e.1) ∧
  b.dirs.filter K = a.dirs.filter K

theorem AgreeOn.refl {K : FPath → Bool} (a : FS) : AgreeOn K a a := ⟨rfl, rfl⟩

theorem AgreeOn.trans {K : FPath → Bool} {a b c : FS}
    (h1 : AgreeOn K a b) (h2 : AgreeOn K b c) : AgreeOn K a c :=
  ⟨h2.1.trans h1.1, h2.2.trans h1.2⟩

/-- The vendor checkouts' part of the namespace. -/
def vendKeep (q : FPath) : Bool := q.head? == some "vendor"

/-- The published `skills/<outN>` subtree. -/
def outKeep (outN : String) (q : FPath) : Bool := (outPathOf outN).isPrefixOf q

theorem vendKeep_mono {x y : FPath} (hx : vendKeep x = true) (hxy : x.isPrefixOf y = true) :
    vendKeep y = true := by
  obtain ⟨u, rfl⟩ := ipo_iff.mp hxy
  unfold vendKeep at *
  cases x with
  | nil => simp at hx
  | cons a t => simpa using hx

theorem outKeep_mono {outN : String} {x y : FPath} (hx : outKeep outN x = true)
    (hxy : x.isPrefixOf y = true) : outKeep outN y = true := ipo_trans hx hxy

theorem lookup_eq_of_agree {K : FPath → Bool} {a b : FS} (hab : AgreeOn K a b) {q : FPath}
    (hq : K q = true) : b.lookupFile q = a.lookupFile q := by
  unfold FS.lookupFile
  have hg : ∀ e : FPath × String, e.1 = q → K e.1 = true := fun e he => by rw [he]; exact hq
  rw [← find_over_filter hg b.files, hab.1, find_over_filter hg a.files]

theorem isFile_eq_of_agree {K : FPath → Bool} {a b : FS} (hab : AgreeOn K a b) {q : FPath}
    (hq : K q = true) : b.isFileB q = a.isFileB q := by
  unfold FS.isFileB
  rw [lookup_eq_of_agree hab hq]

theorem isDir_eq_of_agree {K : FPath → Bool} {a b : FS} (hab : AgreeOn K a b) {q : FPath}
    (hmono : ∀ x, q.isPrefixOf x = true → K x = true) : b.isDirB q = a.isDirB q := by
  unfold FS.isDirB
  have hq : K q = true := hmono q (ipo_refl q)
  have h1 : b.dirs.any (fun d => d == q) = a.dirs.any (fun d => d == q) := by
    have himp : ∀ d : FPath, (d == q) = true → K d = true := by
      intro d hd
      have : d = q := by simpa using hd
      rw [this]; exact hq
    rw [← any_over_filter himp b.dirs, hab.2, any_over_filter himp a.dirs]
  have h2 : b.files.any (fun e => q.isPrefixOf e.1 && !(e.1 == q))
      = a.files.any (fun e => q.isPrefixOf e.1 && !(e.1 == q)) := by
    have himp : ∀ e : FPath × String, (q.isPrefixOf e.1 && !(e.1 == q)) = true →
        (fun e : FPath × String => K e.1) e = true := by
      intro e he
      exact hmono _ ((Bool.and_eq_true _ _).mp he).1
    rw [← any_over_filter himp b.files, hab.1, any_over_filter himp a.files]
  rw [h1, h2]

theorem exists_eq_of_agree {K : FPath → Bool} {a b : FS} (hab : AgreeOn K a b) {q : FPath}
    (hmono : ∀ x, q.isPrefixOf x = true → K x = true) : b.existsB q = a.existsB q := by
  unfold FS.existsB
  rw [isFile_eq_of_agree hab (hmono q (ipo_refl q)), isDir_eq_of_agree hab hmono]

theorem filesUnder_eq_of_agree {K : FPath → Bool} {a b : FS} (hab : AgreeOn K a b) {sp : FPath}
    (hmono : ∀ x, sp.isPrefixOf x = true → K x = true) : filesUnder b sp = filesUnder a sp := by
  unfold filesUnder
  have himp : ∀ e : FPath × String, (sp.isPrefixOf e.1 && !(e.1 == sp)) = true →
      (fun e : FPath × String => K e.1) e = true := by
    intro e he
    exact hmono _ ((Bool.and_eq_true _ _).mp he).1
  rw [← filter_over_filter himp b.files, hab.1, filter_over_filter himp a.files]

/-! ### Per-operation agreement preservation -/

theorem agree_write {K : FPath → Bool} (fs : FS) {q : FPath} (hK : K q = false) (c : String) :
    AgreeOn K fs (fs.writeFile q c) := by
  constructor
  · show ((q, c) :: fs.files.filter (fun e => !(e.1 == q))).filter (fun e => K e.1)
      = fs.files.filter (fun e => K e.1)
    rw [List.filter_cons]
    simp only [hK]
    have himp : ∀ e : FPath × String, (fun e : FPath × String => K e.1) e = true →
        (fun e : FPath × String => !(e.1 == q)) e = true := by
      intro e he
      change K e.1 = true at he
      by_cases heq : e.1 = q
      · rw [heq] at he; rw [he] at hK; cases hK
      · simp [heq]
    exact (filter_over_filter himp fs.files)
  · rfl

theorem agree_rm {K : FPath → Bool} (fs : FS) {q : FPath}
    (hdisj : ∀ x, q.isPrefixOf x = true → K x = false) : AgreeOn K fs (fs.rmRec q) := by
  constructor
  · have himp : ∀ e : FPath × String, (fun e : FPath × String => K e.1) e = true →
        (fun e : FPath × String => !(q.isPrefixOf e.1)) e = true := by
      intro e he
      change K e.1 = true at he
      by_cases hp : q.isPrefixOf e.1 = true
      · rw [hdisj _ hp] at he; cases he
      · simp only [Bool.not_eq_true] at hp; simp [hp]
    exact (filter_over_filter himp fs.files)
  · have himp : ∀ d : FPath, K d = true → (fun d : FPath => !(q.isPrefixOf d)) d = true := by
      intro d hd
      by_cases hp : q.isPrefixOf d = true
      · rw [hdisj _ hp] at hd; cases hd
      · simp only [Bool.not_eq_true] at hp; simp [hp]
    exact (filter_over_filter himp fs.dirs)

theorem agree_mkdir {K : FPath → Bool} (fs : FS) {q : FPath}
    (hq : ∀ x, x.isPrefixOf q = true → K x = false) : AgreeOn K fs (fs.mkdirRec q) := by
  constructor
  · rfl
  · show (pathInits q ++ fs.dirs).filter K = fs.dirs.filter K
    rw [List.filter_append]
    have : (pathInits q).filter K = [] := by
      rw [List.filter_eq_nil_iff]
      intro x hx
      rw [hq x (ipo_of_mem_pathInits hx)]
      simp
    rw [this, List.nil_append]

/-! ### `syncPair` touches only its own output subtree -/

theorem K_false_of_pre {K : FPath → Bool} {outN' : String}
    (h0 : K [] = false) (h1 : K ["skills"] = false)
    (h2 : ∀ q, (outPathOf outN').isPrefixOf q = true → K q = false)
    {z x : FPath} (hx : x.isPrefixOf (outPathOf outN' ++ z) = true) : K x = false := by
  have hx' : x.isPrefixOf ("skills" :: outN' :: z) = true := hx
  rcases prefix_cases_two hx' with rfl | rfl | hpre
  · exact h0
  · exact h1
  · exact h2 x hpre

theorem agree_copyStep {K : FPath → Bool} {outN' : String}
    (h0 : K [] = false) (h1 : K ["skills"] = false)
    (h2 : ∀ q, (outPathOf outN').isPrefixOf q = true → K q = false)
    (sp : FPath) (acc : FS) (e : FPath × String) :
    AgreeOn K acc (copyStep sp outN' acc e) := by
  unfold copyStep
  have hdest : K (outPathOf outN' ++ e.1.drop sp.length) = false :=
    h2 _ (ipo_self_append _ _)
  refine AgreeOn.trans ?_ (agree_write _ hdest _)
  by_cases hd : (FS.existsB acc ((outPathOf outN' ++ e.1.drop sp.length).dropLast)) = true
  · rw [if_pos hd]; exact AgreeOn.refl acc
  · rw [if_neg hd]
    refine agree_mkdir _ ?_
    intro x hx
    have hpre : x.isPrefixOf (outPathOf outN' ++ e.1.drop sp.length) = true :=
      ipo_trans hx (ipo_iff.mpr (List.dropLast_prefix _))
    exact K_false_of_pre h0 h1 h2 hpre

theorem agree_copyFold {K : FPath → Bool} {outN' : String}
    (h0 : K [] = false) (h1 : K ["skills"] = false)
    (h2 : ∀ q, (outPathOf outN').isPrefixOf q = true → K q = false) (sp : FPath) :
    ∀ (entries : List (FPath × String)) (acc : FS),
      AgreeOn K acc (entries.foldl (copyStep sp outN') acc)
  | [], _ => AgreeOn.refl _
  | e :: t, acc => by
    rw [List.foldl_cons]
    exact AgreeOn.trans (agree_copyStep h0 h1 h2 sp acc e) (agree_copyFold h0 h1 h2 sp t _)

theorem agree_syncPairBody {K : FPath → Bool} {outN' : String}
    (h0 : K [] = false) (h1 : K ["skills"] = false)
    (h2 : ∀ q, (outPathOf outN').isPrefixOf q = true → K q = false)
    (env : SyncEnv) (vn : String) (fs : FS) (sn : String) :
    AgreeOn K fs (syncPairBody env vn fs sn outN') := by
  unfold syncPairBody
  have hrm : AgreeOn K fs (pairRm fs (outPathOf outN')) := by
    unfold pairRm
    by_cases hex : fs.existsB (outPathOf outN') = true
    · rw [if_pos hex]; exact agree_rm _ h2
    · rw [if_neg hex]; exact AgreeOn.refl _
  have hmk : AgreeOn K (pairRm fs (outPathOf outN'))
      ((pairRm fs (outPathOf outN')).mkdirRec (outPathOf outN')) := by
    refine agree_mkdir _ ?_
    intro x hx
    have hx' : x.isPrefixOf (outPathOf outN' ++ []) = true := by
      rw [List.append_nil]; exact hx
    exact K_false_of_pre h0 h1 h2 hx'
  have hcp : AgreeOn K ((pairRm fs (outPathOf outN')).mkdirRec (outPathOf outN'))
      (pairCopy ((pairRm fs (outPathOf outN')).mkdirRec (outPathOf outN')) (srcPathOf vn sn) outN') :=
    agree_copyFold h0 h1 h2 _ _ _
  have hlic : ∀ g : FS, AgreeOn K g (pairLicense g vn outN') := by
    intro g
    unfold pairLicense
    cases findLicense g (vendorPathOf vn) with
    | none => exact AgreeOn.refl _
    | some c => exact agree_write _ (h2 _ (ipo_self_append _ _)) _
  exact AgreeOn.trans (AgreeOn.trans (AgreeOn.trans (AgreeOn.trans hrm hmk) hcp) (hlic _))
    (agree_write _ (h2 _ (ipo_self_append _ _)) _)

theorem syncPair_skip {env : SyncEnv} {vn sn outN : String} {fs : FS}
    (h : fs.existsB (srcPathOf vn sn) = false) : syncPair env vn fs sn outN = (fs, false) := by
  unfold syncPair
  rw [if_pos h]

theorem agree_syncPair {K : FPath → Bool} {outN' : String}
    (h0 : K [] = false) (h1 : K ["skills"] = false)
    (h2 : ∀ q, (outPathOf outN').isPrefixOf q = true → K q = false)
    (env : SyncEnv) (vn : String) (fs : FS) (sn : String) :
    AgreeOn K fs (syncPair env vn fs sn outN').1 := by
  unfold syncPair
  by_cases hs : fs.existsB (srcPathOf vn sn) = false
  · rw [if_pos hs]; exact AgreeOn.refl _
  · rw [if_neg hs]; exact agree_syncPairBody h0 h1 h2 env vn fs sn

/-- `vendKeep` satisfies the disjointness conditions for every output. -/
theorem vendKeep_zero : vendKeep [] = false := by decide

theorem vendKeep_skills : vendKeep ["skills"] = false := by decide

theorem vendKeep_out (outN' : String) :
    ∀ q, (outPathOf outN').isPrefixOf q = true → vendKeep q = false := by
  intro q hq
  obtain ⟨u, rfl⟩ := ipo_iff.mp hq
  simp only [vendKeep, outPathOf, List.cons_append, List.head?_cons]
  decide

theorem outKeep_zero (outN : String) : outKeep outN [] = false := rfl

theorem outKeep_skills (outN : String) : outKeep outN ["skills"] = false := by
  simp [outKeep, outPathOf, List.isPrefixOf_cons₂]

theorem outKeep_other {outN outN' : String} (hne : outN ≠ outN') :
    ∀ q, (outPathOf outN').isPrefixOf q = true → outKeep outN q = false := by
  intro q hq
  obtain ⟨u, rfl⟩ := ipo_iff.mp hq
  by_contra h
  rw [Bool.not_eq_false] at h
  exact hne (eq_of_skills_head h)

/-! ### Key uniqueness is an invariant -/

def NodupKeys (fs : FS) : Prop := (fs.files.map (fun e => e.1)).Nodup

theorem nodup_map_filter {l : List (FPath × String)} (g : FPath × String → Bool)
    (h : (l.map (fun e => e.1)).Nodup) : ((l.filter g).map (fun e => e.1)).Nodup :=
  List.Nodup.sublist (List.Sublist.map _ (List.filter_sublist l)) h

theorem nodupKeys_write {fs : FS} {q : FPath} {c : String} (h : NodupKeys fs) :
    NodupKeys (fs.writeFile q c) := by
  unfold NodupKeys FS.writeFile at *
  simp only [List.map_cons]
  rw [List.nodup_cons]
  constructor
  · intro hmem
    obtain ⟨e, hemem, he1⟩ := List.mem_map.mp hmem
    have := (List.mem_filter.mp hemem).2
    rw [he1] at this
    simp at this
  · exact nodup_map_filter _ h

theorem nodupKeys_rm {fs : FS} {q : FPath} (h : NodupKeys fs) : NodupKeys (fs.rmRec q) :=
  nodup_map_filter _ h

theorem nodupKeys_mkdir {fs : FS} {q : FPath} (h : NodupKeys fs) : NodupKeys (fs.mkdirRec q) := h

theorem nodupKeys_copyStep {sp : FPath} {outN : String} {acc : FS} {e : FPath × String}
    (h : NodupKeys acc) : NodupKeys (copyStep sp outN acc e) := by
  have hcs : copyStep sp outN acc e =
      (if acc.existsB ((outPathOf outN ++ e.1.drop sp.length).dropLast) then acc
        else acc.mkdirRec ((outPathOf outN ++ e.1.drop sp.length).dropLast)).writeFile
        (outPathOf outN ++ e.1.drop sp.length) e.2 := rfl
  rw [hcs]
  by_cases hd : acc.existsB ((outPathOf outN ++ e.1.drop sp.length).dropLast) = true
  · rw [if_pos hd]; exact nodupKeys_write h
  · rw [if_neg hd]; exact nodupKeys_write (nodupKeys_mkdir h)

theorem nodupKeys_copyFold {sp : FPath} {outN : String} :
    ∀ (entries : List (FPath × String)) (acc : FS),
      NodupKeys acc → NodupKeys (entries.foldl (copyStep sp outN) acc)
  | [], _, h => h
  | e :: t, acc, h => by
    rw [List.foldl_cons]
    exact nodupKeys_copyFold t _ (nodupKeys_copyStep h)

theorem nodupKeys_syncPairBody {env : SyncEnv} {vn sn outN : String} {fs : FS}
    (h : NodupKeys fs) : NodupKeys (syncPairBody env vn fs sn outN) := by
  unfold syncPairBody
  refine nodupKeys_write ?_
  have h1 : NodupKeys ((pairRm fs (outPathOf outN)).mkdirRec (outPathOf outN)) := by
    refine nodupKeys_mkdir ?_
    unfold pairRm
    by_cases hex : fs.existsB (outPathOf outN) = true
    · rw [if_pos hex]; exact nodupKeys_rm h
    · rw [if_neg hex]; exact h
  have h2 : NodupKeys (pairCopy ((pairRm fs (outPathOf outN)).mkdirRec (outPathOf outN))
      (srcPathOf vn sn) outN) := nodupKeys_copyFold _ _ h1
  unfold pairLicense
  cases findLicense (pairCopy ((pairRm fs (outPathOf outN)).mkdirRec (outPathOf outN))
      (srcPathOf vn sn) outN) (vendorPathOf vn) with
  | none => exact h2
  | some c => exact nodupKeys_write h2

theorem nodupKeys_syncPair {env : SyncEnv} {vn sn outN : String} {fs : FS}
    (h : NodupKeys fs) : NodupKeys (syncPair env vn fs sn outN).1 := by
  unfold syncPair
  by_cases hs : fs.existsB (srcPathOf vn sn) = false
  · rw [if_pos hs]; exact h
  · rw [if_neg hs]; exact nodupKeys_syncPairBody h

/-! ### The sync folds preserve the vendor area and output-area frames -/

/-- Invariant along the sync folds: the vendor area still agrees with the
post-update tree `base`, and file keys stay unique. -/
def SyncInv (base cur : FS) : Prop := AgreeOn vendKeep base cur ∧ NodupKeys cur

theorem vendKeep_vendorPath (vn : String) : vendKeep (vendorPathOf vn) = true := by
  simp [vendKeep, vendorPathOf]

theorem vendKeep_vendorSkillsPath (vn : String) : vendKeep (vendorSkillsPathOf vn) = true := by
  simp [vendKeep, vendorSkillsPathOf]

theorem vendKeep_srcPath (vn sn : String) : vendKeep (srcPathOf vn sn) = true := by
  simp [vendKeep, srcPathOf]

theorem exists_eq_of_vendAgree {base cur : FS} (h : AgreeOn vendKeep base cur) {q : FPath}
    (hq : vendKeep q = true) : cur.existsB q = base.existsB q :=
  exists_eq_of_agree h (fun _ hx => vendKeep_mono hq hx)

theorem lookup_eq_of_vendAgree {base cur : FS} (h : AgreeOn vendKeep base cur) {q : FPath}
    (hq : vendKeep q = true) : cur.lookupFile q = base.lookupFile q :=
  lookup_eq_of_agree h hq

theorem syncInv_pair {base cur : FS} (h : SyncInv base cur) (env : SyncEnv) (vn sn outN' : String) :
    SyncInv base (syncPair env vn cur sn outN').1 :=
  ⟨AgreeOn.trans h.1
      (agree_syncPair vendKeep_zero vendKeep_skills (vendKeep_out outN') env vn cur sn),
    nodupKeys_syncPair h.2⟩

theorem syncPairs_cons (env : SyncEnv) (vn : String) (fs : FS) (sn outN : String)
    (rest : List (String × String)) :
    syncPairs env vn fs ((sn, outN) :: rest)
      = ((syncPairs env vn (syncPair env vn fs sn outN).1 rest).1,
          ⟨vn, sn, outN, (syncPair env vn fs sn outN).2⟩
            :: (syncPairs env vn (syncPair env vn fs sn outN).1 rest).2) := rfl

theorem syncPairs_preserve {K : FPath → Bool} {base : FS}
    (h0 : K [] = false) (h1 : K ["skills"] = false) (env : SyncEnv) (vn : String) :
    ∀ (prs : List (String × String)) (cur : FS),
      SyncInv base cur →
      (∀ pr ∈ prs, (∀ q, (outPathOf pr.2).isPrefixOf q = true → K q = false) ∨
        base.existsB (srcPathOf vn pr.1) = false) →
      SyncInv base (syncPairs env vn cur prs).1 ∧ AgreeOn K cur (syncPairs env vn cur prs).1
  | [], cur, hInv, _ => ⟨hInv, AgreeOn.refl cur⟩
  | (sn', outN') :: rest, cur, hInv, hcond => by
    rw [syncPairs_cons]
    have hInv1 : SyncInv base (syncPair env vn cur sn' outN').1 :=
      syncInv_pair hInv env vn sn' outN'
    have hK1 : AgreeOn K cur (syncPair env vn cur sn' outN').1 := by
      rcases hcond (sn', outN') (List.mem_cons_self _ _) with hdisj | hskip
      · exact agree_syncPair h0 h1 hdisj env vn cur sn'
      · have hskip' : cur.existsB (srcPathOf vn sn') = false := by
          rw [exists_eq_of_vendAgree hInv.1 (vendKeep_srcPath vn sn')]
          exact hskip
        rw [syncPair_skip hskip']
        exact AgreeOn.refl cur
    have hrest := syncPairs_preserve h0 h1 env vn rest (syncPair env vn cur sn' outN').1 hInv1
      (fun pr hpr => hcond pr (List.mem_cons_of_mem _ hpr))
    exact ⟨hrest.1, AgreeOn.trans hK1 hrest.2⟩

theorem syncVendors_cons1 {env : SyncEnv} {fs : FS} {vn : String} {cfg : VendorConfig}
    {rest : List (String × VendorConfig)} (h : fs.existsB (vendorPathOf vn) = false) :
    syncVendors env fs ((vn, cfg) :: rest) =
      ((syncVendors env fs rest).1, (syncVendors env fs rest).2.1,
        ("Vendor submodule not found: " ++ vn) :: (syncVendors env fs rest).2.2) := by
  simp only [syncVendors]
  rw [if_pos h]

theorem syncVendors_cons2 {env : SyncEnv} {fs : FS} {vn : String} {cfg : VendorConfig}
    {rest : List (String × VendorConfig)} (h : ¬fs.existsB (vendorPathOf vn) = false)
    (h2 : fs.existsB (vendorSkillsPathOf vn) = false) :
    syncVendors env fs ((vn, cfg) :: rest) =
      ((syncVendors env fs rest).1, (syncVendors env fs rest).2.1,
        ("No skills directory in vendor/" ++ vn ++ "/skills/") :: (syncVendors env fs rest).2.2) := by
  simp only [syncVendors]
  rw [if_neg h, if_pos h2]

theorem syncVendors_cons3 {env : SyncEnv} {fs : FS} {vn : String} {cfg : VendorConfig}
    {rest : List (String × VendorConfig)} (h : ¬fs.existsB (vendorPathOf vn) = false)
    (h2 : ¬fs.existsB (vendorSkillsPathOf vn) = false) :
    syncVendors env fs ((vn, cfg) :: rest) =
      ((syncVendors env (syncPairs env vn fs cfg.skills).1 rest).1,
        (syncPairs env vn fs cfg.skills).2
          ++ (syncVendors env (syncPairs env vn fs cfg.skills).1 rest).2.1,
        (syncVendors env (syncPairs env vn fs cfg.skills).1 rest).2.2) := by
  simp only [syncVendors]
  rw [if_neg h, if_neg h2]

theorem syncVendors_preserve {K : FPath → Bool} {base : FS}
    (h0 : K [] = false) (h1 : K ["skills"] = false) (env : SyncEnv) :
    ∀ (vlist : List (String × VendorConfig)) (cur : FS),
      SyncInv base cur →
      (∀ vc ∈ vlist, ∀ pr ∈ (vc : String × VendorConfig).2.skills,
        (∀ q, (outPathOf pr.2).isPrefixOf q = true → K q = false) ∨
          base.existsB (srcPathOf vc.1 pr.1) = false) →
      SyncInv base (syncVendors env cur vlist).1 ∧ AgreeOn K cur (syncVendors env cur vlist).1
  | [], cur, hInv, _ => ⟨hInv, AgreeOn.refl cur⟩
  | (vn, cfg) :: rest, cur, hInv, hcond => by
    by_cases hv : cur.existsB (vendorPathOf vn) = false
    · rw [syncVendors_cons1 hv]
      exact syncVendors_preserve h0 h1 env rest cur hInv
        (fun vc hvc => hcond vc (List.mem_cons_of_mem _ hvc))
    · by_cases hsk : cur.existsB (vendorSkillsPathOf vn) = false
      · rw [syncVendors_cons2 hv hsk]
        exact syncVendors_preserve h0 h1 env rest cur hInv
          (fun vc hvc => hcond vc (List.mem_cons_of_mem _ hvc))
      · rw [syncVendors_cons3 hv hsk]
        have hp := syncPairs_preserve h0 h1 env vn cfg.skills cur hInv
          (fun pr hpr => hcond (vn, cfg) (List.mem_cons_self _ _) pr hpr)
        have hrest := syncVendors_preserve h0 h1 env rest (syncPairs env vn cur cfg.skills).1
          hp.1 (fun vc hvc => hcond vc (List.mem_cons_of_mem _ hvc))
        exact ⟨hrest.1, AgreeOn.trans hp.2 hrest.2⟩

/-! ### Pointwise lookup behaviour of the operations -/

theorem lookup_write_self (fs : FS) (q : FPath) (c : String) :
    (fs.writeFile q c).lookupFile q = some c := by
  unfold FS.writeFile FS.lookupFile
  simp [List.find?_cons]

theorem lookup_write_ne (fs : FS) {p q : FPath} (h : p ≠ q) (c : String) :
    (fs.writeFile q c).lookupFile p = fs.lookupFile p := by
  unfold FS.writeFile FS.lookupFile
  have hq : (q == p) = false := by simp [Ne.symm h]
  rw [List.find?_cons]
  simp only [hq]
  have hg : ∀ e : FPath × String, e.1 = p → (fun e : FPath × String => !(e.1 == q)) e = true := by
    intro e he
    simp [he, h]
  rw [find_over_filter hg fs.files]

theorem lookup_mkdir (fs : FS) (q p : FPath) : (fs.mkdirRec q).lookupFile p = fs.lookupFile p :=
  rfl

theorem lookup_rm_under (fs : FS) {q p : FPath} (h : q.isPrefixOf p = true) :
    (fs.rmRec q).lookupFile p = none := by
  unfold FS.rmRec FS.lookupFile
  have : (fs.files.filter (fun e => !(q.isPrefixOf e.1))).find? (fun e => e.1 == p) = none := by
    rw [List.find?_eq_none]
    intro x hx
    have hpred := (List.mem_filter.mp hx).2
    intro hkey
    have hxp : x.1 = p := by simpa using hkey
    rw [hxp, h] at hpred
    simp at hpred
  rw [this]
  rfl

theorem lookup_none_of_not_exists {fs : FS} {q : FPath} (h : fs.existsB q = false) (r : FPath) :
    fs.lookupFile (q ++ r) = none := by
  have hnf : fs.isFileB q = false := by
    unfold FS.existsB at h
    exact (Bool.or_eq_false_iff.mp h).1
  have hnd : fs.isDirB q = false := by
    unfold FS.existsB at h
    exact (Bool.or_eq_false_iff.mp h).2
  cases r with
  | nil =>
    rw [List.append_nil]
    unfold FS.isFileB at hnf
    exact Option.not_isSome_iff_eq_none.mp (by rw [hnf]; simp)
  | cons a t =>
    cases hfind : fs.lookupFile (q ++ a :: t) with
    | none => rfl
    | some c =>
      exfalso
      unfold FS.lookupFile at hfind
      cases hf : fs.files.find? (fun e => e.1 == q ++ a :: t) with
      | none => rw [hf] at hfind; cases hfind
      | some e =>
        have hmem := List.mem_of_find?_eq_some hf
        have hkey : e.1 = q ++ a :: t := by
          have := List.find?_some hf
          simpa using this
        have : fs.isDirB q = true := by
          unfold FS.isDirB
          refine Bool.or_eq_true_iff.mpr (Or.inr ?_)
          rw [List.any_eq_true]
          refine ⟨e, hmem, ?_⟩
          rw [hkey]
          have h1 : q.isPrefixOf (q ++ a :: t) = true := ipo_self_append _ _
          have h2 : (q ++ a :: t == q) = false := by
            rw [beq_eq_false_iff_ne]
            intro hcontra
            have : (q ++ a :: t).length = q.length := by rw [hcontra]
            simp [List.length_append] at this
          rw [h1, h2]
          rfl
        rw [this] at hnd
        cases hnd

theorem find_of_mem_nodup :
    ∀ {l : List (FPath × String)}, (l.map (fun e => e.1)).Nodup →
      ∀ {e : FPath × String}, e ∈ l → l.find? (fun x => x.1 == e.1) = some e := by
  intro l
  induction l with
  | nil => intro _ e he; cases he
  | cons x t ih =>
    intro hnd e he
    rw [List.map_cons, List.nodup_cons] at hnd
    rcases List.mem_cons.mp he with rfl | hmem
    · rw [List.find?_cons]
      simp
    · have hne : (x.1 == e.1) = false := by
        rw [beq_eq_false_iff_ne]
        intro hcontra
        exact hnd.1 (hcontra ▸ List.mem_map.mpr ⟨e, hmem, rfl⟩)
      rw [List.find?_cons]
      simp only [hne]
      exact ih hnd.2 hmem

/-! ### The copy loop, characterised -/

theorem reconstruct_of_ipo {sp x : FPath} (h : sp.isPrefixOf x = true) :
    sp ++ x.drop sp.length = x :=
  List.prefix_iff_eq_append.mp (ipo_iff.mp h)

theorem lookup_copyStep_ne {sp : FPath} {outN : String} (acc : FS) (e : FPath × String)
    {p : FPath} (h : p ≠ outPathOf outN ++ e.1.drop sp.length) :
    (copyStep sp outN acc e).lookupFile p = acc.lookupFile p := by
  have hcs : copyStep sp outN acc e =
      (if acc.existsB ((outPathOf outN ++ e.1.drop sp.length).dropLast) then acc
        else acc.mkdirRec ((outPathOf outN ++ e.1.drop sp.length).dropLast)).writeFile
        (outPathOf outN ++ e.1.drop sp.length) e.2 := rfl
  rw [hcs]
  by_cases hd : acc.existsB ((outPathOf outN ++ e.1.drop sp.length).dropLast) = true
  · rw [if_pos hd, lookup_write_ne _ h]
  · rw [if_neg hd, lookup_write_ne _ h, lookup_mkdir]

theorem lookup_copyStep_self {sp : FPath} {outN : String} (acc : FS) (e : FPath × String) :
    (copyStep sp outN acc e).lookupFile (outPathOf outN ++ e.1.drop sp.length) = some e.2 := by
  have hcs : copyStep sp outN acc e =
      (if acc.existsB ((outPathOf outN ++ e.1.drop sp.length).dropLast) then acc
        else acc.mkdirRec ((outPathOf outN ++ e.1.drop sp.length).dropLast)).writeFile
        (outPathOf outN ++ e.1.drop sp.length) e.2 := rfl
  rw [hcs]
  exact lookup_write_self _ _ _

theorem copyFold_missed {sp : FPath} {outN : String} {r : FPath} :
    ∀ (entries : List (FPath × String)), (∀ e ∈ entries, sp.isPrefixOf e.1 = true) →
      (∀ e ∈ entries, e.1 ≠ sp ++ r) →
      ∀ acc : FS, (entries.foldl (copyStep sp outN) acc).lookupFile (outPathOf outN ++ r)
        = acc.lookupFile (outPathOf outN ++ r)
  | [], _, _, _ => rfl
  | e :: t, hsh, hne, acc => by
    rw [List.foldl_cons]
    rw [copyFold_missed t (fun x hx => hsh x (List.mem_cons_of_mem _ hx))
      (fun x hx => hne x (List.mem_cons_of_mem _ hx)) _]
    apply lookup_copyStep_ne
    intro hcontra
    have hdr : r = e.1.drop sp.length := List.append_cancel_left hcontra
    have he1 : e.1 = sp ++ r := by
      rw [hdr]
      exact (reconstruct_of_ipo (hsh e (List.mem_cons_self _ _))).symm
    exact hne e (List.mem_cons_self _ _) he1

theorem copyFold_found {sp : FPath} {outN : String} {r : FPath} :
    ∀ (entries : List (FPath × String)), (entries.map (fun e => e.1)).Nodup →
      (∀ e ∈ entries, sp.isPrefixOf e.1 = true) →
      ∀ e0 : FPath × String, e0 ∈ entries → e0.1 = sp ++ r →
      ∀ acc : FS, (entries.foldl (copyStep sp outN) acc).lookupFile (outPathOf outN ++ r)
        = some e0.2
  | [], _, _, _, he0, _, _ => absurd he0 (List.not_mem_nil _)
  | e :: t, hnd, hsh, e0, he0, hr, acc => by
    rw [List.map_cons, List.nodup_cons] at hnd
    rw [List.foldl_cons]
    rcases List.mem_cons.mp he0 with rfl | hmem
    · rw [copyFold_missed t (fun x hx => hsh x (List.mem_cons_of_mem _ hx)) ?hner _]
      case hner =>
        intro x hx hx1
        exact hnd.1 (by rw [hr, ← hx1]; exact List.mem_map.mpr ⟨x, hx, rfl⟩)
      have hdest : outPathOf outN ++ r = outPathOf outN ++ e0.1.drop sp.length := by
        rw [hr, List.drop_left]
      rw [hdest]
      exact lookup_copyStep_self _ _
    · exact copyFold_found t hnd.2 (fun x hx => hsh x (List.mem_cons_of_mem _ hx)) e0 hmem hr _

theorem outPath_not_pre_vend {outN : String} {q : FPath} (hq : vendKeep q = true) :
    (outPathOf outN).isPrefixOf q = false := by
  cases q with
  | nil => simp [vendKeep] at hq
  | cons a t =>
    have ha : a = "vendor" := by
      have := hq
      unfold vendKeep at this
      simpa using this
    subst ha
    rw [outPathOf]
    rw [List.isPrefixOf_cons₂]
    have hne : (("skills" : String) == "vendor") = false := by decide
    rw [hne, Bool.false_and]

theorem mem_filesUnder {fs : FS} {q : FPath} {e : FPath × String} :
    e ∈ filesUnder fs q ↔ e ∈ fs.files ∧ q.isPrefixOf e.1 = true ∧ e.1 ≠ q := by
  unfold filesUnder
  rw [List.mem_filter]
  simp [Bool.and_eq_true]

/-! ### The body of one pair, characterised -/

theorem agree_stageB {K : FPath → Bool} {outN : String}
    (h0 : K [] = false) (h1 : K ["skills"] = false)
    (h2 : ∀ q, (outPathOf outN).isPrefixOf q = true → K q = false) (cur : FS) :
    AgreeOn K cur ((pairRm cur (outPathOf outN)).mkdirRec (outPathOf outN)) := by
  have hrm : AgreeOn K cur (pairRm cur (outPathOf outN)) := by
    unfold pairRm
    by_cases hex : cur.existsB (outPathOf outN) = true
    · rw [if_pos hex]; exact agree_rm _ h2
    · rw [if_neg hex]; exact AgreeOn.refl _
  refine AgreeOn.trans hrm (agree_mkdir _ ?_)
  intro x hx
  have hx' : x.isPrefixOf (outPathOf outN ++ []) = true := by rw [List.append_nil]; exact hx
  exact K_false_of_pre h0 h1 h2 hx'

theorem agree_stageC {K : FPath → Bool} {outN : String}
    (h0 : K [] = false) (h1 : K ["skills"] = false)
    (h2 : ∀ q, (outPathOf outN).isPrefixOf q = true → K q = false) (cur : FS) (sp : FPath) :
    AgreeOn K cur (pairCopy ((pairRm cur (outPathOf outN)).mkdirRec (outPathOf outN)) sp outN) :=
  AgreeOn.trans (agree_stageB h0 h1 h2 cur) (agree_copyFold h0 h1 h2 sp _ _)

theorem nodupKeys_stageB {cur : FS} {outN : String} (h : NodupKeys cur) :
    NodupKeys ((pairRm cur (outPathOf outN)).mkdirRec (outPathOf outN)) := by
  refine nodupKeys_mkdir ?_
  unfold pairRm
  by_cases hex : cur.existsB (outPathOf outN) = true
  · rw [if_pos hex]; exact nodupKeys_rm h
  · rw [if_neg hex]; exact h

theorem findLicense_eq_of_vendAgree {a b : FS} (hab : AgreeOn vendKeep a b) (vn : String) :
    findLicense b (vendorPathOf vn) = findLicense a (vendorPathOf vn) := by
  unfold findLicense
  have hfun : (fun n : String => b.isFileB (vendorPathOf vn ++ [n]))
      = (fun n : String => a.isFileB (vendorPathOf vn ++ [n])) := by
    funext n
    exact isFile_eq_of_agree hab (vendKeep_mono (vendKeep_vendorPath vn) (ipo_self_append _ _))
  rw [hfun]
  cases licenseNames.find? (fun n : String => a.isFileB (vendorPathOf vn ++ [n])) with
  | none => rfl
  | some n => exact lookup_eq_of_agree hab (vendKeep_mono (vendKeep_vendorPath vn) (ipo_self_append _ _))

theorem copyPhase_lookup {vn sn outN : String} {cur : FS} (hnd : NodupKeys cur)
    (hs0 : cur.lookupFile (srcPathOf vn sn) = none) (r : FPath) :
    (pairCopy ((pairRm cur (outPathOf outN)).mkdirRec (outPathOf outN))
        (srcPathOf vn sn) outN).lookupFile (outPathOf outN ++ r)
      = cur.lookupFile (srcPathOf vn sn ++ r) := by
  have hva : AgreeOn vendKeep cur ((pairRm cur (outPathOf outN)).mkdirRec (outPathOf outN)) :=
    agree_stageB vendKeep_zero vendKeep_skills (vendKeep_out outN) cur
  have hndB : NodupKeys ((pairRm cur (outPathOf outN)).mkdirRec (outPathOf outN)) :=
    nodupKeys_stageB hnd
  have hkeep : vendKeep (srcPathOf vn sn ++ r) = true :=
    vendKeep_mono (vendKeep_srcPath vn sn) (ipo_self_append _ _)
  have hrel : ((pairRm cur (outPathOf outN)).mkdirRec (outPathOf outN)).lookupFile
      (srcPathOf vn sn ++ r) = cur.lookupFile (srcPathOf vn sn ++ r) :=
    lookup_eq_of_agree hva hkeep
  have hsh : ∀ e ∈ filesUnder ((pairRm cur (outPathOf outN)).mkdirRec (outPathOf outN))
      (srcPathOf vn sn), (srcPathOf vn sn).isPrefixOf e.1 = true :=
    fun e he => (mem_filesUnder.mp he).2.1
  have hndE : ((filesUnder ((pairRm cur (outPathOf outN)).mkdirRec (outPathOf outN))
      (srcPathOf vn sn)).map (fun e => e.1)).Nodup := nodup_map_filter _ hndB
  unfold pairCopy
  cases hc : cur.lookupFile (srcPathOf vn sn ++ r) with
  | some c =>
    have hrne : r ≠ [] := by
      intro hr0
      rw [hr0, List.append_nil, hs0] at hc
      cases hc
    have hlookB : ((pairRm cur (outPathOf outN)).mkdirRec (outPathOf outN)).lookupFile
        (srcPathOf vn sn ++ r) = some c := by rw [hrel]; exact hc
    unfold FS.lookupFile at hlookB
    cases hf : ((pairRm cur (outPathOf outN)).mkdirRec (outPathOf outN)).files.find?
        (fun e => e.1 == srcPathOf vn sn ++ r) with
    | none => rw [hf] at hlookB; cases hlookB
    | some e0 =>
      rw [hf] at hlookB
      have he0key : e0.1 = srcPathOf vn sn ++ r := by
        have := List.find?_some hf
        simpa using this
      have he0mem := List.mem_of_find?_eq_some hf
      have he0val : e0.2 = c := by
        simpa using hlookB
      have he0entries : e0 ∈ filesUnder ((pairRm cur (outPathOf outN)).mkdirRec (outPathOf outN))
          (srcPathOf vn sn) := by
        refine mem_filesUnder.mpr ⟨he0mem, ?_, ?_⟩
        · rw [he0key]; exact ipo_self_append _ _
        · rw [he0key]
          intro hcontra
          have : srcPathOf vn sn ++ r = srcPathOf vn sn ++ [] := by
            rw [List.append_nil]; exact hcontra
          exact hrne (List.append_cancel_left this)
      rw [copyFold_found _ hndE hsh e0 he0entries he0key _]
      rw [he0val]
  | none =>
    have hne : ∀ e ∈ filesUnder ((pairRm cur (outPathOf outN)).mkdirRec (outPathOf outN))
        (srcPathOf vn sn), e.1 ≠ srcPathOf vn sn ++ r := by
      intro e he hkey
      have hlookB : ((pairRm cur (outPathOf outN)).mkdirRec (outPathOf outN)).lookupFile
          (srcPathOf vn sn ++ r) = none := by rw [hrel]; exact hc
      unfold FS.lookupFile at hlookB
      cases hf : ((pairRm cur (outPathOf outN)).mkdirRec (outPathOf outN)).files.find?
          (fun e => e.1 == srcPathOf vn sn ++ r) with
      | some e1 => rw [hf] at hlookB; cases hlookB
      | none =>
        have := List.find?_eq_none.mp hf e (mem_filesUnder.mp he).1
        exact this (by simpa using hkey)
    rw [copyFold_missed _ hsh hne _]
    rw [lookup_mkdir]
    unfold pairRm
    by_cases hex : cur.existsB (outPathOf outN) = true
    · rw [if_pos hex]; exact lookup_rm_under _ (ipo_self_append _ _)
    · rw [if_neg hex]
      exact lookup_none_of_not_exists (Bool.not_eq_true _ ▸ Bool.of_not_eq_true hex) r

theorem body_lookup_sync (env : SyncEnv) (vn sn outN : String) (cur : FS) :
    (syncPairBody env vn cur sn outN).lookupFile (outPathOf outN ++ ["SYNC.md"])
      = some (syncContent vn sn (env.gitSha (vendorPathOf vn)) env.today) := by
  unfold syncPairBody
  exact lookup_write_self _ _ _

theorem body_lookup_main {env : SyncEnv} {vn sn outN : String} {cur : FS} {r : FPath}
    (hnd : NodupKeys cur) (hs0 : cur.lookupFile (srcPathOf vn sn) = none)
    (hL : r ≠ ["LICENSE.md"]) (hS : r ≠ ["SYNC.md"]) :
    (syncPairBody env vn cur sn outN).lookupFile (outPathOf outN ++ r)
      = cur.lookupFile (srcPathOf vn sn ++ r) := by
  unfold syncPairBody
  rw [lookup_write_ne _ (fun h => hS (List.append_cancel_left h)) _]
  unfold pairLicense
  cases hF : findLicense (pairCopy ((pairRm cur (outPathOf outN)).mkdirRec (outPathOf outN))
      (srcPathOf vn sn) outN) (vendorPathOf vn) with
  | some c =>
    rw [lookup_write_ne _ (fun h => hL (List.append_cancel_left h)) _]
    exact copyPhase_lookup hnd hs0 r
  | none => exact copyPhase_lookup hnd hs0 r

theorem body_lookup_license {env : SyncEnv} {vn sn outN : String} {cur : FS}
    (hnd : NodupKeys cur) (hs0 : cur.lookupFile (srcPathOf vn sn) = none) :
    (syncPairBody env vn cur sn outN).lookupFile (outPathOf outN ++ ["LICENSE.md"])
      = (match findLicense cur (vendorPathOf vn) with
          | some c => some c
          | none => cur.lookupFile (srcPathOf vn sn ++ ["LICENSE.md"])) := by
  unfold syncPairBody
  rw [lookup_write_ne _ (fun h => by
    have := List.append_cancel_left h
    simp at this) _]
  unfold pairLicense
  have hFL : findLicense (pairCopy ((pairRm cur (outPathOf outN)).mkdirRec (outPathOf outN))
      (srcPathOf vn sn) outN) (vendorPathOf vn) = findLicense cur (vendorPathOf vn) :=
    findLicense_eq_of_vendAgree
      (agree_stageC vendKeep_zero vendKeep_skills (vendKeep_out outN) cur _) vn
  rw [hFL]
  cases hF : findLicense cur (vendorPathOf vn) with
  | some c => exact lookup_write_self _ _ _
  | none => exact copyPhase_lookup hnd hs0 _

theorem lookup_eq_of_outAgree {a b : FS} {outN : String} (hab : AgreeOn (outKeep outN) a b)
    (r : FPath) :
    b.lookupFile (outPathOf outN ++ r) = a.lookupFile (outPathOf outN ++ r) :=
  lookup_eq_of_agree hab (ipo_self_append _ _)

theorem exists_eq_of_outAgree {a b : FS} {outN : String} (hab : AgreeOn (outKeep outN) a b) :
    b.existsB (outPathOf outN) = a.existsB (outPathOf outN) :=
  exists_eq_of_agree hab (fun _ hx => outKeep_mono (ipo_refl _) hx)

theorem isDir_eq_of_outAgree {a b : FS} {outN : String} (hab : AgreeOn (outKeep outN) a b) :
    b.isDirB (outPathOf outN) = a.isDirB (outPathOf outN) :=
  isDir_eq_of_agree hab (fun _ hx => outKeep_mono (ipo_refl _) hx)

/-! ### Fold composition and outcome coverage -/

theorem syncPair_run {env : SyncEnv} {vn sn outN : String} {fs : FS}
    (h : ¬fs.existsB (srcPathOf vn sn) = false) :
    syncPair env vn fs sn outN = (syncPairBody env vn fs sn outN, true) := by
  unfold syncPair
  rw [if_neg h]

theorem syncInv_syncPairs {base : FS} (env : SyncEnv) (vn : String)
    (prs : List (String × String)) (cur : FS) (h : SyncInv base cur) :
    SyncInv base (syncPairs env vn cur prs).1 :=
  (syncPairs_preserve vendKeep_zero vendKeep_skills env vn prs cur h
    (fun pr _ => Or.inl (vendKeep_out pr.2))).1

theorem syncInv_syncVendors {base : FS} (env : SyncEnv)
    (vlist : List (String × VendorConfig)) (cur : FS) (h : SyncInv base cur) :
    SyncInv base (syncVendors env cur vlist).1 :=
  (syncVendors_preserve vendKeep_zero vendKeep_skills env vlist cur h
    (fun _ _ pr _ => Or.inl (vendKeep_out pr.2))).1

theorem syncPairs_append_fst (env : SyncEnv) (vn : String) :
    ∀ (l1 l2 : List (String × String)) (cur : FS),
      (syncPairs env vn cur (l1 ++ l2)).1 = (syncPairs env vn (syncPairs env vn cur l1).1 l2).1
  | [], _, _ => rfl
  | (sn, outN) :: t, l2, cur => by
    rw [List.cons_append, syncPairs_cons, syncPairs_cons]
    exact syncPairs_append_fst env vn t l2 _

theorem syncPairs_append_snd (env : SyncEnv) (vn : String) :
    ∀ (l1 l2 : List (String × String)) (cur : FS),
      (syncPairs env vn cur (l1 ++ l2)).2
        = (syncPairs env vn cur l1).2 ++ (syncPairs env vn (syncPairs env vn cur l1).1 l2).2
  | [], _, _ => rfl
  | (sn, outN) :: t, l2, cur => by
    rw [List.cons_append, syncPairs_cons, syncPairs_cons]
    simp only [List.cons_append, List.cons.injEq, true_and]
    exact syncPairs_append_snd env vn t l2 _

theorem syncVendors_append_fst (env : SyncEnv) :
    ∀ (l1 l2 : List (String × VendorConfig)) (cur : FS),
      (syncVendors env cur (l1 ++ l2)).1 = (syncVendors env (syncVendors env cur l1).1 l2).1
  | [], _, _ => rfl
  | (vn, cfg) :: t, l2, cur => by
    rw [List.cons_append]
    by_cases hv : cur.existsB (vendorPathOf vn) = false
    · rw [syncVendors_cons1 hv, syncVendors_cons1 hv]
      exact syncVendors_append_fst env t l2 cur
    · by_cases hsk : cur.existsB (vendorSkillsPathOf vn) = false
      · rw [syncVendors_cons2 hv hsk, syncVendors_cons2 hv hsk]
        exact syncVendors_append_fst env t l2 cur
      · rw [syncVendors_cons3 hv hsk, syncVendors_cons3 hv hsk]
        exact syncVendors_append_fst env t l2 _

theorem syncVendors_append_snd (env : SyncEnv) :
    ∀ (l1 l2 : List (String × VendorConfig)) (cur : FS),
      (syncVendors env cur (l1 ++ l2)).2.1
        = (syncVendors env cur l1).2.1
          ++ (syncVendors env (syncVendors env cur l1).1 l2).2.1
  | [], _, _ => rfl
  | (vn, cfg) :: t, l2, cur => by
    rw [List.cons_append]
    by_cases hv : cur.existsB (vendorPathOf vn) = false
    · rw [syncVendors_cons1 hv, syncVendors_cons1 hv]
      exact syncVendors_append_snd env t l2 cur
    · by_cases hsk : cur.existsB (vendorSkillsPathOf vn) = false
      · rw [syncVendors_cons2 hv hsk, syncVendors_cons2 hv hsk]
        exact syncVendors_append_snd env t l2 cur
      · rw [syncVendors_cons3 hv hsk, syncVendors_cons3 hv hsk]
        rw [List.append_assoc]
        simp only [List.append_cancel_left_eq]
        exact syncVendors_append_snd env t l2 _

theorem syncPairs_outcome_complete (env : SyncEnv) (vn : String) :
    ∀ (prs : List (String × String)) (cur : FS) (pr : String × String), pr ∈ prs →
      ∃ b, (⟨vn, pr.1, pr.2, b⟩ : PairOutcome) ∈ (syncPairs env vn cur prs).2
  | [], _, _, hpr => absurd hpr (List.not_mem_nil _)
  | (sn, outN) :: t, cur, pr, hpr => by
    rw [syncPairs_cons]
    rcases List.mem_cons.mp hpr with rfl | hmem
    · exact ⟨(syncPair env vn cur sn outN).2, List.mem_cons_self _ _⟩
    · obtain ⟨b, hb⟩ := syncPairs_outcome_complete env vn t (syncPair env vn cur sn outN).1 pr hmem
      exact ⟨b, List.mem_cons_of_mem _ hb⟩

theorem syncVendors_outcome_complete {base : FS} (env : SyncEnv) :
    ∀ (vlist : List (String × VendorConfig)) (cur : FS), SyncInv base cur →
      ∀ vc ∈ vlist, base.existsB (vendorPathOf (vc : String × VendorConfig).1) = true →
        base.existsB (vendorSkillsPathOf vc.1) = true →
        ∀ pr ∈ (vc : String × VendorConfig).2.skills,
          ∃ b, (⟨vc.1, pr.1, pr.2, b⟩ : PairOutcome) ∈ (syncVendors env cur vlist).2.1
  | [], _, _, vc, hvc, _, _, _, _ => absurd hvc (List.not_mem_nil _)
  | (vn, cfg) :: t, cur, hInv, vc, hvc, hvp, hvsk, pr, hpr => by
    rcases List.mem_cons.mp hvc with rfl | hmem
    · have hvp' : base.existsB (vendorPathOf vn) = true := hvp
      have hvsk' : base.existsB (vendorSkillsPathOf vn) = true := hvsk
      have hpr' : pr ∈ cfg.skills := hpr
      have hv : ¬cur.existsB (vendorPathOf vn) = false := by
        rw [exists_eq_of_vendAgree hInv.1 (vendKeep_vendorPath vn), hvp']
        simp
      have hsk : ¬cur.existsB (vendorSkillsPathOf vn) = false := by
        rw [exists_eq_of_vendAgree hInv.1 (vendKeep_vendorSkillsPath vn), hvsk']
        simp
      rw [syncVendors_cons3 hv hsk]
      obtain ⟨b, hb⟩ := syncPairs_outcome_complete env vn cfg.skills cur pr hpr'
      exact ⟨b, List.mem_append.mpr (Or.inl hb)⟩
    · by_cases hv : cur.existsB (vendorPathOf vn) = false
      · rw [syncVendors_cons1 hv]
        exact syncVendors_outcome_complete env t cur hInv vc hmem hvp hvsk pr hpr
      · by_cases hsk : cur.existsB (vendorSkillsPathOf vn) = false
        · rw [syncVendors_cons2 hv hsk]
          exact syncVendors_outcome_complete env t cur hInv vc hmem hvp hvsk pr hpr
        · rw [syncVendors_cons3 hv hsk]
          obtain ⟨b, hb⟩ := syncVendors_outcome_complete env t (syncPairs env vn cur cfg.skills).1
            (syncInv_syncPairs env vn cfg.skills cur hInv) vc hmem hvp hvsk pr hpr
          exact ⟨b, List.mem_append.mpr (Or.inr hb)⟩

/-! ### Master characterisation of one processed pair -/

theorem sync_main_char
    (env : SyncEnv) {vends : List (String × VendorConfig)} {fs fs1 : FS}
    {pre post : List (String × VendorConfig)} {vn : String} {cfg : VendorConfig}
    {spre spost : List (String × String)} {sn outN : String}
    (hupd : env.update fs = some fs1)
    (hvends : vends = pre ++ (vn, cfg) :: post)
    (hskills : cfg.skills = spre ++ (sn, outN) :: spost)
    (hnd : NodupKeys fs1)
    (hvend : fs1.existsB (vendorPathOf vn) = true)
    (hvsk : fs1.existsB (vendorSkillsPathOf vn) = true)
    (hsrc : fs1.existsB (srcPathOf vn sn) = true)
    (hs0 : fs1.lookupFile (srcPathOf vn sn) = none)
    (huniqS : ∀ pr ∈ spost, (pr : String × String).2 ≠ outN)
    (huniqV : ∀ vc ∈ post, ∀ pr ∈ (vc : String × VendorConfig).2.skills,
      (pr : String × String).2 ≠ outN) :
    (∀ r, r ≠ ["LICENSE.md"] → r ≠ ["SYNC.md"] →
      (syncSubmodules env vends fs).fs.lookupFile (outPathOf outN ++ r)
        = fs1.lookupFile (srcPathOf vn sn ++ r))
    ∧ (syncSubmodules env vends fs).fs.lookupFile (outPathOf outN ++ ["SYNC.md"])
        = some (syncContent vn sn (env.gitSha (vendorPathOf vn)) env.today)
    ∧ (syncSubmodules env vends fs).fs.lookupFile (outPathOf outN ++ ["LICENSE.md"])
        = (match findLicense fs1 (vendorPathOf vn) with
            | some c => some c
            | none => fs1.lookupFile (srcPathOf vn sn ++ ["LICENSE.md"])) := by
  have hInvA : SyncInv fs1 (syncVendors env fs1 pre).1 :=
    syncInv_syncVendors env pre fs1 ⟨AgreeOn.refl _, hnd⟩
  have hv : ¬(syncVendors env fs1 pre).1.existsB (vendorPathOf vn) = false := by
    rw [exists_eq_of_vendAgree hInvA.1 (vendKeep_vendorPath vn), hvend]
    simp
  have hsk : ¬(syncVendors env fs1 pre).1.existsB (vendorSkillsPathOf vn) = false := by
    rw [exists_eq_of_vendAgree hInvA.1 (vendKeep_vendorSkillsPath vn), hvsk]
    simp
  have hInvB : SyncInv fs1 (syncPairs env vn (syncVendors env fs1 pre).1 spre).1 :=
    syncInv_syncPairs env vn spre _ hInvA
  have hrunB : ¬(syncPairs env vn (syncVendors env fs1 pre).1 spre).1.existsB
      (srcPathOf vn sn) = false := by
    rw [exists_eq_of_vendAgree hInvB.1 (vendKeep_srcPath vn sn), hsrc]
    simp
  have hrun : syncPair env vn (syncPairs env vn (syncVendors env fs1 pre).1 spre).1 sn outN
      = (syncPairBody env vn (syncPairs env vn (syncVendors env fs1 pre).1 spre).1 sn outN,
        true) := syncPair_run hrunB
  have hfold : (syncSubmodules env vends fs).fs
      = (syncVendors env (syncPairs env vn
          (syncPairBody env vn (syncPairs env vn (syncVendors env fs1 pre).1 spre).1 sn outN)
          spost).1 post).1 := by
    simp only [syncSubmodules, hupd]
    rw [hvends, syncVendors_append_fst env pre ((vn, cfg) :: post) fs1,
      syncVendors_cons3 hv hsk, hskills,
      syncPairs_append_fst env vn spre ((sn, outN) :: spost) (syncVendors env fs1 pre).1,
      syncPairs_cons, hrun]
  have hInvP : SyncInv fs1
      (syncPairBody env vn (syncPairs env vn (syncVendors env fs1 pre).1 spre).1 sn outN) := by
    have := syncInv_pair hInvB env vn sn outN
    rwa [hrun] at this
  have hcS := syncPairs_preserve (outKeep_zero outN) (outKeep_skills outN) env vn
    spost _ hInvP (fun pr hpr => Or.inl (outKeep_other (Ne.symm (huniqS pr hpr))))
  have hcV := syncVendors_preserve (outKeep_zero outN) (outKeep_skills outN) env
    post _ hcS.1 (fun vc hvc pr hpr => Or.inl (outKeep_other (Ne.symm (huniqV vc hvc pr hpr))))
  have hagree : AgreeOn (outKeep outN)
      (syncPairBody env vn (syncPairs env vn (syncVendors env fs1 pre).1 spre).1 sn outN)
      ((syncVendors env (syncPairs env vn
        (syncPairBody env vn (syncPairs env vn (syncVendors env fs1 pre).1 spre).1 sn outN)
        spost).1 post).1) := AgreeOn.trans hcS.2 hcV.2
  have hndB : NodupKeys (syncPairs env vn (syncVendors env fs1 pre).1 spre).1 := hInvB.2
  have hs0B : (syncPairs env vn (syncVendors env fs1 pre).1 spre).1.lookupFile
      (srcPathOf vn sn) = none := by
    rw [lookup_eq_of_vendAgree hInvB.1 (vendKeep_srcPath vn sn)]
    exact hs0
  refine ⟨?_, ?_, ?_⟩
  · intro r hL hS
    rw [hfold, lookup_eq_of_outAgree hagree r, body_lookup_main hndB hs0B hL hS,
      lookup_eq_of_vendAgree hInvB.1 (vendKeep_mono (vendKeep_srcPath vn sn)
        (ipo_self_append _ _))]
  · rw [hfold, lookup_eq_of_outAgree hagree ["SYNC.md"], body_lookup_sync]
  · rw [hfold, lookup_eq_of_outAgree hagree ["LICENSE.md"], body_lookup_license hndB hs0B,
      findLicense_eq_of_vendAgree hInvB.1 vn,
      lookup_eq_of_vendAgree hInvB.1 (vendKeep_mono (vendKeep_srcPath vn sn)
        (ipo_self_append _ _))]

/-! ### Master characterisation of one skipped pair -/

theorem sync_skip_char
    (env : SyncEnv) {vends : List (String × VendorConfig)} {fs fs1 : FS}
    {pre post : List (String × VendorConfig)} {vn : String} {cfg : VendorConfig}
    {spre spost : List (String × String)} {sn outN : String}
    (hupd : env.update fs = some fs1)
    (hvends : vends = pre ++ (vn, cfg) :: post)
    (hskills : cfg.skills = spre ++ (sn, outN) :: spost)
    (hnd : NodupKeys fs1)
    (hvend : fs1.existsB (vendorPathOf vn) = true)
    (hvsk : fs1.existsB (vendorSkillsPathOf vn) = true)
    (hsrcm : fs1.existsB (srcPathOf vn sn) = false)
    (huniq : ∀ vc ∈ vends, ∀ pr ∈ (vc : String × VendorConfig).2.skills,
      (pr : String × String).2 = outN → fs1.existsB (srcPathOf vc.1 pr.1) = false) :
    (∀ r, (syncSubmodules env vends fs).fs.lookupFile (outPathOf outN ++ r)
        = fs1.lookupFile (outPathOf outN ++ r))
    ∧ (syncSubmodules env vends fs).fs.existsB (outPathOf outN)
        = fs1.existsB (outPathOf outN)
    ∧ (syncSubmodules env vends fs).fs.isDirB (outPathOf outN)
        = fs1.isDirB (outPathOf outN)
    ∧ (⟨vn, sn, outN, false⟩ : PairOutcome) ∈ (syncSubmodules env vends fs).outcomes
    ∧ (∀ vc ∈ vends, fs1.existsB (vendorPathOf (vc : String × VendorConfig).1) = true →
        fs1.existsB (vendorSkillsPathOf vc.1) = true →
        ∀ pr ∈ (vc : String × VendorConfig).2.skills,
          ∃ b, (⟨vc.1, pr.1, pr.2, b⟩ : PairOutcome) ∈ (syncSubmodules env vends fs).outcomes) := by
  have hfs : (syncSubmodules env vends fs).fs = (syncVendors env fs1 vends).1 := by
    simp only [syncSubmodules, hupd]
  have houtcs : (syncSubmodules env vends fs).outcomes = (syncVendors env fs1 vends).2.1 := by
    simp only [syncSubmodules, hupd]
  have hpres := syncVendors_preserve (outKeep_zero outN) (outKeep_skills outN)
    env vends fs1 ⟨AgreeOn.refl _, hnd⟩ (fun vc hvc pr hpr => by
      by_cases h : (pr : String × String).2 = outN
      · exact Or.inr (huniq vc hvc pr hpr h)
      · exact Or.inl (outKeep_other (Ne.symm h)))
  have hInvA : SyncInv fs1 (syncVendors env fs1 pre).1 :=
    syncInv_syncVendors env pre fs1 ⟨AgreeOn.refl _, hnd⟩
  have hv : ¬(syncVendors env fs1 pre).1.existsB (vendorPathOf vn) = false := by
    rw [exists_eq_of_vendAgree hInvA.1 (vendKeep_vendorPath vn), hvend]
    simp
  have hsk : ¬(syncVendors env fs1 pre).1.existsB (vendorSkillsPathOf vn) = false := by
    rw [exists_eq_of_vendAgree hInvA.1 (vendKeep_vendorSkillsPath vn), hvsk]
    simp
  have hInvB : SyncInv fs1 (syncPairs env vn (syncVendors env fs1 pre).1 spre).1 :=
    syncInv_syncPairs env vn spre _ hInvA
  have hskip : (syncPairs env vn (syncVendors env fs1 pre).1 spre).1.existsB
      (srcPathOf vn sn) = false := by
    rw [exists_eq_of_vendAgree hInvB.1 (vendKeep_srcPath vn sn)]
    exact hsrcm
  refine ⟨?_, ?_, ?_, ?_, ?_⟩
  · intro r
    rw [hfs, lookup_eq_of_outAgree hpres.2 r]
  · rw [hfs, exists_eq_of_outAgree hpres.2]
  · rw [hfs, isDir_eq_of_outAgree hpres.2]
  · rw [houtcs]
    have h1 : (⟨vn, sn, outN, false⟩ : PairOutcome)
        ∈ (syncPairs env vn (syncVendors env fs1 pre).1 cfg.skills).2 := by
      rw [hskills, syncPairs_append_snd env vn spre ((sn, outN) :: spost)
        (syncVendors env fs1 pre).1, syncPairs_cons]
      refine List.mem_append.mpr (Or.inr ?_)
      rw [syncPair_skip hskip]
      exact List.mem_cons_self _ _
    have h2 : (⟨vn, sn, outN, false⟩ : PairOutcome)
        ∈ (syncVendors env (syncVendors env fs1 pre).1 ((vn, cfg) :: post)).2.1 := by
      rw [syncVendors_cons3 hv hsk]
      exact List.mem_append.mpr (Or.inl h1)
    rw [hvends, syncVendors_append_snd env pre ((vn, cfg) :: post) fs1]
    exact List.mem_append.mpr (Or.inr h2)
  · intro vc hvc hv1 hv2 pr hpr
    obtain ⟨b, hb⟩ := syncVendors_outcome_complete env vends fs1 ⟨AgreeOn.refl _, hnd⟩
      vc hvc hv1 hv2 pr hpr
    exact ⟨b, by rw [houtcs]; exact hb⟩

/-! ### Helpers for `checkUpdates`, `initSubmodules` and `submoduleExists` -/

theorem behindPositive_some {b : Option String} {n : Int} :
    behindPositive b = some n ↔
      ∃ s, b = some s ∧ ¬s = "" ∧ jsParseInt s = some n ∧ 0 < n := by
  cases b with
  | none => simp [behindPositive]
  | some s =>
    have hbp : behindPositive (some s) = (if (s == "") = true then none
        else match jsParseInt s with
          | some m => if 0 < m then some m else none
          | none => none) := rfl
    rw [hbp]
    by_cases hs : (s == "") = true
    · rw [if_pos hs]
      have hs0 : s = "" := by simpa using hs
      subst hs0
      simp
    · rw [if_neg hs]
      have hs' : ¬s = "" := by simpa using hs
      cases hp : jsParseInt s with
      | none =>
        constructor
        · intro h
          have h' : (none : Option Int) = some n := h
          cases h'
        · intro ⟨s', hs1, _, hp', _⟩
          cases hs1
          rw [hp] at hp'
          cases hp'
      | some m =>
        show (if 0 < m then some m else none) = some n ↔ _
        by_cases hm : 0 < m
        · rw [if_pos hm]
          constructor
          · intro h
            cases h
            exact ⟨s, rfl, hs', hp, hm⟩
          · intro ⟨s', hs1, _, hp', _⟩
            cases hs1
            rw [hp] at hp'
            cases hp'
            rfl
        · rw [if_neg hm]
          constructor
          · intro h; cases h
          · intro ⟨s', hs1, _, hp', hn0⟩
            cases hs1
            rw [hp] at hp'
            cases hp'
            exact absurd hn0 hm

theorem sourceUpdates_mem {env : CheckEnv} {fs : FS} {subs : List (String × String)}
    {u : Update} :
    u ∈ sourceUpdates env fs subs ↔
      ∃ nm url n, (nm, url) ∈ subs ∧ fs.existsB ["sources", nm] = true ∧
        behindPositive (env.behind ["sources", nm]) = some n ∧ u = ⟨nm, "source", n⟩ := by
  unfold sourceUpdates
  rw [List.mem_filterMap]
  constructor
  · intro ⟨pr, hpr, hf⟩
    by_cases hex : fs.existsB ["sources", pr.1] = false
    · rw [if_pos hex] at hf; cases hf
    · rw [if_neg hex] at hf
      obtain ⟨n, hn, hu⟩ := Option.map_eq_some'.mp hf
      exact ⟨pr.1, pr.2, n, hpr, Bool.not_eq_false _ ▸ Bool.of_not_eq_false
        (by intro hc; exact hex hc), hn, hu.symm⟩
  · intro ⟨nm, url, n, hmem, hex, hbp, hu⟩
    refine ⟨(nm, url), hmem, ?_⟩
    have hnex : ¬fs.existsB ["sources", nm] = false := by rw [hex]; simp
    rw [if_neg hnex]
    rw [hbp]
    rw [hu]
    rfl

theorem vendorUpdates_utype {env : CheckEnv} {fs : FS}
    {vends : List (String × VendorConfig)} {u : Update} (hu : u ∈ vendorUpdates env fs vends) :
    u.utype = "vendor" := by
  unfold vendorUpdates at hu
  rw [List.mem_filterMap] at hu
  obtain ⟨pr, _, hf⟩ := hu
  by_cases hex : fs.existsB ["vendor", pr.1] = false
  · rw [if_pos hex] at hf; cases hf
  · rw [if_neg hex] at hf
    obtain ⟨n, _, hu2⟩ := Option.map_eq_some'.mp hf
    rw [← hu2]

theorem sourceUpdates_utype {env : CheckEnv} {fs : FS} {subs : List (String × String)}
    {u : Update} (hu : u ∈ sourceUpdates env fs subs) : u.utype = "source" := by
  obtain ⟨nm, url, n, _, _, _, hu2⟩ := sourceUpdates_mem.mp hu
  rw [hu2]

theorem vendorUpdates_mem {env : CheckEnv} {fs : FS} {vends : List (String × VendorConfig)}
    {u : Update} :
    u ∈ vendorUpdates env fs vends ↔
      ∃ pr ∈ vends, ∃ n, fs.existsB ["vendor", (pr : String × VendorConfig).1] = true ∧
        behindPositive (env.behind ["vendor", pr.1]) = some n ∧
        u = ⟨vendorLabel pr, "vendor", n⟩ := by
  unfold vendorUpdates
  rw [List.mem_filterMap]
  constructor
  · intro ⟨pr, hpr, hf⟩
    by_cases hex : fs.existsB ["vendor", pr.1] = false
    · rw [if_pos hex] at hf; cases hf
    · rw [if_neg hex] at hf
      obtain ⟨n, hn, hu⟩ := Option.map_eq_some'.mp hf
      exact ⟨pr, hpr, n, Bool.not_eq_false _ ▸ Bool.of_not_eq_false
        (by intro hc; exact hex hc), hn, hu.symm⟩
  · intro ⟨pr, hpr, n, hex, hbp, hu⟩
    refine ⟨pr, hpr, ?_⟩
    rw [if_neg (by rw [hex]; simp), hbp, hu]
    rfl

theorem runAdds_attempted {env : InitEnv} :
    ∀ (prs : List Project) (fs0 f : FS) (att ad : List String),
      runAdds env fs0 prs = .ok (f, att, ad) →
      ∀ nm ∈ att, ∃ pr ∈ prs, (pr : Project).name = nm
  | [], fs0, f, att, ad, h, nm, hnm => by
    unfold runAdds at h
    cases h
    cases hnm
  | pr :: rest, fs0, f, att, ad, h, nm, hnm => by
    unfold runAdds at h
    by_cases hmf : fs0.existsB (parentDirOf pr.lpath) = false ∧ env.mkdirFails
        (parentDirOf pr.lpath) = true
    · rw [if_pos hmf] at h; cases h
    · rw [if_neg hmf] at h
      by_cases hok : env.addOk pr = true
      · rw [if_pos hok] at h
        cases hr : runAdds env (env.addEffect pr (if fs0.existsB (parentDirOf pr.lpath) then fs0
            else fs0.mkdirRec (parentDirOf pr.lpath))) rest with
        | error e => rw [hr] at h; cases h
        | ok triple =>
          rw [hr] at h
          cases h
          rcases List.mem_cons.mp hnm with rfl | hmem
          · exact ⟨pr, List.mem_cons_self _ _, rfl⟩
          · obtain ⟨pr', hpr', hname⟩ := runAdds_attempted rest _ _ _ _ hr nm hmem
            exact ⟨pr', List.mem_cons_of_mem _ hpr', hname⟩
      · rw [if_neg hok] at h
        cases hr : runAdds env (if fs0.existsB (parentDirOf pr.lpath) then fs0
            else fs0.mkdirRec (parentDirOf pr.lpath)) rest with
        | error e => rw [hr] at h; cases h
        | ok triple =>
          rw [hr] at h
          cases h
          rcases List.mem_cons.mp hnm with rfl | hmem
          · exact ⟨pr, List.mem_cons_self _ _, rfl⟩
          · obtain ⟨pr', hpr', hname⟩ := runAdds_attempted rest _ _ _ _ hr nm hmem
            exact ⟨pr', List.mem_cons_of_mem _ hpr', hname⟩

theorem runAdds_total {env : InitEnv} (hmk : ∀ p : FPath, env.mkdirFails p = false) :
    ∀ (prs : List Project) (fs0 : FS),
      ∃ f ad, runAdds env fs0 prs = .ok (f, prs.map Project.name, ad)
  | [], fs0 => ⟨fs0, [], rfl⟩
  | pr :: rest, fs0 => by
    unfold runAdds
    have hnmf : ¬(fs0.existsB (parentDirOf pr.lpath) = false ∧ env.mkdirFails
        (parentDirOf pr.lpath) = true) := by
      rw [hmk]
      simp
    rw [if_neg hnmf]
    by_cases hok : env.addOk pr = true
    · rw [if_pos hok]
      obtain ⟨f, ad, hr⟩ := runAdds_total hmk rest (env.addEffect pr
        (if fs0.existsB (parentDirOf pr.lpath) then fs0
          else fs0.mkdirRec (parentDirOf pr.lpath)))
      rw [hr]
      exact ⟨f, pr.name :: ad, rfl⟩
    · rw [if_neg hok]
      obtain ⟨f, ad, hr⟩ := runAdds_total hmk rest (if fs0.existsB (parentDirOf pr.lpath) then fs0
        else fs0.mkdirRec (parentDirOf pr.lpath))
      rw [hr]
      exact ⟨f, ad, rfl⟩

theorem strHas_mono : ∀ (l : List Char) {pat pat2 : List Char},
    strHas l pat = true → pat2 <+: pat → strHas l pat2 = true
  | [], pat, pat2, h, hpre => by
    have h' : pat.isEmpty = true := h
    have hp0 : pat = [] := by simpa using h'
    subst hp0
    have hp2 : pat2 = [] := List.prefix_nil.mp hpre
    subst hp2
    rfl
  | c :: t, pat, pat2, h, hpre => by
    have h' : (pat.isPrefixOf (c :: t) || strHas t pat) = true := h
    show (pat2.isPrefixOf (c :: t) || strHas t pat2) = true
    rcases Bool.or_eq_true_iff.mp h' with h1 | h2
    · refine Bool.or_eq_true_iff.mpr (Or.inl ?_)
      exact List.isPrefixOf_iff_prefix.mpr
        (hpre.trans (List.isPrefixOf_iff_prefix.mp h1))
    · exact Bool.or_eq_true_iff.mpr (Or.inr (strHas_mono t h2 hpre))

/-! ### Concrete trees and environments for the example theorems -/

def demoCfg : VendorConfig := ⟨"u", false, [("demo-skill", "demo")]⟩

def demoVendors : List (String × VendorConfig) := [("demo", demoCfg)]

def demoFS : FS :=
  ⟨[(["vendor", "demo", "skills", "demo-skill", "SKILL.md"], "X"),
    (["skills", "demo", "old.md"], "OLD")],
   [["vendor", "demo", "skills", "demo-skill"]]⟩

def idEnv : SyncEnv := ⟨fun f => some f, fun _ => some "abc123", "2026-10-11"⟩

def nullShaEnv : SyncEnv := ⟨fun f => some f, fun _ => none, "2026-10-11"⟩

def failEnv : SyncEnv := ⟨fun _ => none, fun _ => none, "2026-10-11"⟩

def othCfg : VendorConfig := ⟨"u2", false, [("os", "oo")]⟩

def skipVendors : List (String × VendorConfig) := [("demo", demoCfg), ("oth", othCfg)]

def skipFS : FS :=
  ⟨[(["vendor", "oth", "skills", "os", "SKILL.md"], "Y")],
   [["vendor", "demo"], ["vendor", "demo", "skills"]]⟩

def twoSubs : List (String × String) := [("a", "ua"), ("b", "ub")]

def emptyFS : FS := ⟨[], []⟩

def mkdirFailEnv : InitEnv := ⟨false, fun _ => true, fun _ => false, fun _ f => f, fun _ => true⟩

def contEnv : InitEnv := ⟨false, fun _ => true, fun pr => pr.name == "b", fun _ f => f,
  fun _ => false⟩

def cancelEnv : InitEnv := ⟨true, fun _ => true, fun _ => true, fun _ f => f, fun _ => false⟩

def allRegFS : FS := ⟨[([".gitmodules"], "path = sources/a\npath = sources/b\n")], []⟩

def gmFS : FS := ⟨[([".gitmodules"], "[submodule \"x\"]\n\tpath = vendor/foo-bar\n")], []⟩

def fooVendors : List (String × VendorConfig) := [("foo", ⟨"u", false, []⟩)]

def chkEnv : CheckEnv := ⟨true, fun p => if p = ["sources", "vue"] then some "3" else none⟩

def chkFS : FS := ⟨[], [["sources", "vue"]]⟩

/-! ### The claims -/

/-- Claim C1: for every configured skill pair whose source directory exists in
the updated vendor checkout (with the enclosing vendor directories present,
and the output name not reused by any pair processed later), after `sync()`
the file at every relative path under `skills/<out>`, excluding the top-level
`LICENSE.md` and `SYNC.md`, equals the file at the same relative path under
the checkout's `skills/<src>`; in particular paths absent from the source are
absent from the output — no file of a previous sync survives, since the
output directory is removed entirely and recreated. -/
theorem sync_output_equals_source
    (env : SyncEnv) {vends : List (String × VendorConfig)} {fs fs1 : FS}
    {pre post : List (String × VendorConfig)} {vn : String} {cfg : VendorConfig}
    {spre spost : List (String × String)} {sn outN : String}
    (hupd : env.update fs = some fs1)
    (hvends : vends = pre ++ (vn, cfg) :: post)
    (hskills : cfg.skills = spre ++ (sn, outN) :: spost)
    (hnd : NodupKeys fs1)
    (hvend : fs1.existsB (vendorPathOf vn) = true)
    (hvsk : fs1.existsB (vendorSkillsPathOf vn) = true)
    (hsrc : fs1.existsB (srcPathOf vn sn) = true)
    (hs0 : fs1.lookupFile (srcPathOf vn sn) = none)
    (huniqS : ∀ pr ∈ spost, (pr : String × String).2 ≠ outN)
    (huniqV : ∀ vc ∈ post, ∀ pr ∈ (vc : String × VendorConfig).2.skills,
      (pr : String × String).2 ≠ outN) :
    ∀ r, r ≠ ["LICENSE.md"] → r ≠ ["SYNC.md"] →
      (syncSubmodules env vends fs).fs.lookupFile (outPathOf outN ++ r)
        = fs1.lookupFile (srcPathOf vn sn ++ r) :=
  (sync_main_char env hupd hvends hskills hnd hvend hvsk hsrc hs0 huniqS huniqV).1

theorem sync_output_equals_source_witness :
    (syncSubmodules idEnv demoVendors demoFS).fs.lookupFile (outPathOf "demo" ++ ["SKILL.md"])
        = some "X"
    ∧ (syncSubmodules idEnv demoVendors demoFS).fs.lookupFile (outPathOf "demo" ++ ["old.md"])
        = none := by
  have h1 := @sync_output_equals_source idEnv demoVendors demoFS demoFS [] [] "demo" demoCfg
    [] [] "demo-skill" "demo" rfl rfl rfl (by unfold NodupKeys; decide) (by decide) (by decide)
    (by decide) (by decide) (fun pr hpr => absurd hpr (List.not_mem_nil _))
    (fun vc hvc => absurd hvc (List.not_mem_nil _))
  constructor
  · rw [h1 ["SKILL.md"] (by decide) (by decide)]
    decide
  · rw [h1 ["old.md"] (by decide) (by decide)]
    decide

/-- Claim C2: if the global submodule update fails, `sync()` aborts as the one
fatal step: the failure is reported, the tree is returned unchanged (no vendor
skill directory is copied, removed or modified) and the per-vendor loop is
never entered (no outcomes). -/
theorem sync_update_failure_aborts (env : SyncEnv) (vends : List (String × VendorConfig))
    (fs : FS) (hupd : env.update fs = none) :
    syncSubmodules env vends fs = ⟨fs, false, [], ["Failed to update submodules"]⟩ := by
  simp only [syncSubmodules, hupd]

theorem sync_update_failure_aborts_witness :
    syncSubmodules failEnv demoVendors demoFS
      = ⟨demoFS, false, [], ["Failed to update submodules"]⟩ :=
  sync_update_failure_aborts failEnv demoVendors demoFS rfl

/-- Claim C3 (counterexample): the claim says the Git SHA field is empty when
the hash is not resolvable; in fact the JavaScript template literal renders
`null` as the literal text `null`, so the written `SYNC.md` differs from the
claimed empty-field shape. -/
theorem sync_md_empty_sha_counterexample :
    (syncSubmodules nullShaEnv demoVendors demoFS).fs.lookupFile
        (outPathOf "demo" ++ ["SYNC.md"])
      = some ("# Sync Info\n\n- **Source:** `vendor/demo/skills/demo-skill`\n- **Git SHA:** " ++
          "`null`\n- **Synced:** 2026-10-11\n")
    ∧ ¬((syncSubmodules nullShaEnv demoVendors demoFS).fs.lookupFile
        (outPathOf "demo" ++ ["SYNC.md"])
      = some ("# Sync Info\n\n- **Source:** `vendor/demo/skills/demo-skill`\n- **Git SHA:** " ++
          "``\n- **Synced:** 2026-10-11\n")) := by
  constructor
  · decide
  · decide

/-- Claim C3 (amended): for every processed pair, the `SYNC.md` written into
the output directory has exactly the fixed textual shape with the Source line
naming `vendor/<name>/skills/<sourceSkillName>`, a Git SHA line and a Synced
date line; the Git SHA field holds the checkout's hash, or the literal text
`null` when the hash is not resolvable. -/
theorem sync_md_shape
    (env : SyncEnv) {vends : List (String × VendorConfig)} {fs fs1 : FS}
    {pre post : List (String × VendorConfig)} {vn : String} {cfg : VendorConfig}
    {spre spost : List (String × String)} {sn outN : String}
    (hupd : env.update fs = some fs1)
    (hvends : vends = pre ++ (vn, cfg) :: post)
    (hskills : cfg.skills = spre ++ (sn, outN) :: spost)
    (hnd : NodupKeys fs1)
    (hvend : fs1.existsB (vendorPathOf vn) = true)
    (hvsk : fs1.existsB (vendorSkillsPathOf vn) = true)
    (hsrc : fs1.existsB (srcPathOf vn sn) = true)
    (hs0 : fs1.lookupFile (srcPathOf vn sn) = none)
    (huniqS : ∀ pr ∈ spost, (pr : String × String).2 ≠ outN)
    (huniqV : ∀ vc ∈ post, ∀ pr ∈ (vc : String × VendorConfig).2.skills,
      (pr : String × String).2 ≠ outN) :
    (syncSubmodules env vends fs).fs.lookupFile (outPathOf outN ++ ["SYNC.md"])
      = some ("# Sync Info\n\n- **Source:** `vendor/" ++ vn ++ "/skills/" ++ sn
          ++ "`\n- **Git SHA:** `" ++ shaField (env.gitSha (vendorPathOf vn))
          ++ "`\n- **Synced:** " ++ env.today ++ "\n") :=
  (sync_main_char env hupd hvends hskills hnd hvend hvsk hsrc hs0 huniqS huniqV).2.1

theorem sync_md_shape_witness :
    (syncSubmodules nullShaEnv demoVendors demoFS).fs.lookupFile
        (outPathOf "demo" ++ ["SYNC.md"])
      = some ("# Sync Info\n\n- **Source:** `vendor/demo/skills/demo-skill"
          ++ "`\n- **Git SHA:** `" ++ shaField (nullShaEnv.gitSha (vendorPathOf "demo"))
          ++ "`\n- **Synced:** " ++ nullShaEnv.today ++ "\n") :=
  @sync_md_shape nullShaEnv demoVendors demoFS demoFS [] [] "demo" demoCfg
    [] [] "demo-skill" "demo" rfl rfl rfl (by unfold NodupKeys; decide) (by decide) (by decide)
    (by decide) (by decide) (fun pr hpr => absurd hpr (List.not_mem_nil _))
    (fun vc hvc => absurd hvc (List.not_mem_nil _))

/-- Claim C4: once the global fetch has succeeded, `check()` completes its
scan and reports a configured source project exactly when its local checkout
exists and the behind-count probe returns a nonempty string parsing to a
strictly positive count; a probe that fails (`none`, e.g. no tracking ref) is
silently excluded — it is never reported and never turns the scan into an
error. -/
theorem check_reports_iff (env : CheckEnv) (subs : List (String × String))
    (vends : List (String × VendorConfig)) (fs : FS) (name : String)
    (hfetch : env.fetchOk = true) (hname : name ∈ subs.map Prod.fst) :
    ∃ us, checkUpdates env subs vends fs = some us ∧
      ((∃ n, (⟨name, "source", n⟩ : Update) ∈ us) ↔
        (fs.existsB ["sources", name] = true ∧
          ∃ s n, env.behind ["sources", name] = some s ∧ ¬s = "" ∧
            jsParseInt s = some n ∧ 0 < n))
      ∧ (∀ vname cfg, (vname, cfg) ∈ vends →
          (∀ pr ∈ vends, vendorLabel pr = vendorLabel (vname, cfg) →
            (pr : String × VendorConfig).1 = vname) →
          ((∃ n, (⟨vendorLabel (vname, cfg), "vendor", n⟩ : Update) ∈ us) ↔
            (fs.existsB ["vendor", vname] = true ∧
              ∃ s n, env.behind ["vendor", vname] = some s ∧ ¬s = "" ∧
                jsParseInt s = some n ∧ 0 < n))) := by
  refine ⟨sourceUpdates env fs subs ++ vendorUpdates env fs vends, ?_, ?_, ?_⟩
  · unfold checkUpdates
    rw [if_neg (by rw [hfetch]; simp)]
  · constructor
    · rintro ⟨n, hn⟩
      rcases List.mem_append.mp hn with h | h
      · obtain ⟨nm, url, m, hmem, hex, hbp, hu⟩ := sourceUpdates_mem.mp h
        have hnm : nm = name := by
          have := congrArg Update.name hu
          exact this.symm
        have hmn : m = n := by
          have := congrArg Update.behind hu
          exact this.symm
        subst hnm
        subst hmn
        obtain ⟨s, hbs, hsne, hps, hpos⟩ := behindPositive_some.mp hbp
        exact ⟨hex, s, m, hbs, hsne, hps, hpos⟩
      · have := vendorUpdates_utype h
        simp at this
    · rintro ⟨hex, s, n, hb, hne, hp, hpos⟩
      refine ⟨n, List.mem_append.mpr (Or.inl ?_)⟩
      obtain ⟨pr, hpr, hfst⟩ := List.mem_map.mp hname
      have hmem : (name, pr.2) ∈ subs := by
        have hpr' : (pr.1, pr.2) ∈ subs := by simpa using hpr
        rw [hfst] at hpr'
        exact hpr'
      exact sourceUpdates_mem.mpr ⟨name, pr.2, n, hmem, hex,
        behindPositive_some.mpr ⟨s, hb, hne, hp, hpos⟩, rfl⟩
  · intro vname cfg hvmem hinj
    constructor
    · rintro ⟨n, hn⟩
      rcases List.mem_append.mp hn with h | h
      · have := sourceUpdates_utype h
        simp at this
      · obtain ⟨pr, hpr, m, hex, hbp, hu⟩ := vendorUpdates_mem.mp h
        have hlab : vendorLabel pr = vendorLabel (vname, cfg) := by
          have := congrArg Update.name hu
          exact this.symm
        have hpr1 : pr.1 = vname := hinj pr hpr hlab
        rw [hpr1] at hex hbp
        have hmn : m = n := by
          have := congrArg Update.behind hu
          exact this.symm
        subst hmn
        obtain ⟨s, hbs, hsne, hps, hpos⟩ := behindPositive_some.mp hbp
        exact ⟨hex, s, m, hbs, hsne, hps, hpos⟩
    · rintro ⟨hex, s, n, hb, hne, hp, hpos⟩
      refine ⟨n, List.mem_append.mpr (Or.inr ?_)⟩
      exact vendorUpdates_mem.mpr ⟨(vname, cfg), hvmem, n, hex,
        behindPositive_some.mpr ⟨s, hb, hne, hp, hpos⟩, rfl⟩

theorem check_reports_iff_witness :
    ∃ us, checkUpdates chkEnv metaSubmodules [] chkFS = some us ∧
      ((∃ n, (⟨"vue", "source", n⟩ : Update) ∈ us) ↔
        (chkFS.existsB ["sources", "vue"] = true ∧
          ∃ s n, chkEnv.behind ["sources", "vue"] = some s ∧ ¬s = "" ∧
            jsParseInt s = some n ∧ 0 < n))
      ∧ (∀ vname cfg, (vname, cfg) ∈ ([] : List (String × VendorConfig)) →
          (∀ pr ∈ ([] : List (String × VendorConfig)),
            vendorLabel pr = vendorLabel (vname, cfg) →
            (pr : String × VendorConfig).1 = vname) →
          ((∃ n, (⟨vendorLabel (vname, cfg), "vendor", n⟩ : Update) ∈ us) ↔
            (chkFS.existsB ["vendor", vname] = true ∧
              ∃ s n, chkEnv.behind ["vendor", vname] = some s ∧ ¬s = "" ∧
                jsParseInt s = some n ∧ 0 < n))) :=
  check_reports_iff chkEnv metaSubmodules [] chkFS "vue" rfl (by decide)

/-- Claim C5: `init()` never runs a submodule-add for a project whose path is
already in the `.gitmodules` manifest — every attempted project comes from the
not-yet-registered partition — and when every configured project's path is
already there, it returns successfully with the tree unchanged, nothing
attempted and no prompt shown (idempotent no-op). -/
theorem init_no_duplicate_registration (env : InitEnv) (subs : List (String × String))
    (vends : List (String × VendorConfig)) (fs : FS) :
    (∀ out, initSubmodules env subs vends fs = .ok out →
      ∀ nm ∈ out.attempted, ∃ pr ∈ allProjects subs vends,
        (pr : Project).name = nm ∧ submoduleExists fs (pr : Project).lpath = false)
    ∧ ((∀ pr ∈ allProjects subs vends, submoduleExists fs (pr : Project).lpath = true) →
        initSubmodules env subs vends fs = .ok ⟨fs, [], [], false⟩) := by
  constructor
  · intro out hout nm hnm
    unfold initSubmodules at hout
    by_cases h1 : ((allProjects subs vends).filter
        (fun pr => !(submoduleExists fs pr.lpath))).isEmpty = true
    · rw [if_pos h1] at hout
      injection hout with h
      rw [← h] at hnm
      cases hnm
    · rw [if_neg h1] at hout
      by_cases h2 : env.cancel = true
      · rw [if_pos h2] at hout
        injection hout with h
        rw [← h] at hnm
        cases hnm
      · rw [if_neg h2] at hout
        cases hr : runAdds env fs (((allProjects subs vends).filter
            (fun pr => !(submoduleExists fs pr.lpath))).filter env.selects) with
        | error e => rw [hr] at hout; cases hout
        | ok triple =>
          obtain ⟨f, att, ad⟩ := triple
          rw [hr] at hout
          have hout' : Except.ok (⟨f, att, ad, true⟩ : InitOut) = Except.ok out := hout
          injection hout' with h
          rw [← h] at hnm
          obtain ⟨pr, hpr, hname⟩ := runAdds_attempted _ _ _ _ _ hr nm hnm
          have hpr1 := List.mem_filter.mp hpr
          have hpr2 := List.mem_filter.mp hpr1.1
          refine ⟨pr, hpr2.1, hname, ?_⟩
          have := hpr2.2
          simp at this
          exact this
  · intro hall
    have hnil : (allProjects subs vends).filter (fun pr => !(submoduleExists fs pr.lpath))
        = [] := by
      rw [List.filter_eq_nil_iff]
      intro pr hpr
      rw [hall pr hpr]
      simp
    unfold initSubmodules
    rw [hnil]
    rfl

theorem init_no_duplicate_registration_witness :
    initSubmodules contEnv twoSubs [] allRegFS = .ok ⟨allRegFS, [], [], false⟩ :=
  (init_no_duplicate_registration contEnv twoSubs [] allRegFS).2 (by decide)

/-- Claim C9: if the operator cancels the multi-selection prompt, `init()`
returns with no side effects: the tree is unchanged, nothing is attempted and
nothing is registered. -/
theorem init_cancel_no_side_effects (env : InitEnv) (subs : List (String × String))
    (vends : List (String × VendorConfig)) (fs : FS) (hc : env.cancel = true) :
    ∃ out, initSubmodules env subs vends fs = .ok out ∧ out.fs = fs
      ∧ out.attempted = [] ∧ out.added = [] := by
  unfold initSubmodules
  by_cases h1 : ((allProjects subs vends).filter
      (fun pr => !(submoduleExists fs pr.lpath))).isEmpty = true
  · rw [if_pos h1]
    exact ⟨⟨fs, [], [], false⟩, rfl, rfl, rfl, rfl⟩
  · rw [if_neg h1, if_pos hc]
    exact ⟨⟨fs, [], [], true⟩, rfl, rfl, rfl, rfl⟩

theorem init_cancel_no_side_effects_witness :
    ∃ out, initSubmodules cancelEnv twoSubs [] emptyFS = .ok out ∧ out.fs = emptyFS
      ∧ out.attempted = [] ∧ out.added = [] :=
  init_cancel_no_side_effects cancelEnv twoSubs [] emptyFS rfl

/-- Claim C8 (counterexample): a failure to prepare a project's parent
directory is not contained by the per-project error handling: `mkdirSync`
sits outside the try/catch, the exception aborts the whole loop and the
remaining selected projects (here `b`) are never processed. -/
theorem init_mkdir_failure_aborts_counterexample :
    initSubmodules mkdirFailEnv twoSubs [] emptyFS = .error "mkdir failed: sources" := rfl

/-- Claim C8 (amended): a failure of the `git submodule add` command itself is
reported and does not abort the loop — with parent-directory creation never
failing, every selected project is still processed (attempted) regardless of
which adds fail; but a parent-directory-creation failure propagates as an
exception and aborts the remaining projects. -/
theorem init_add_failures_do_not_abort (env : InitEnv) (subs : List (String × String))
    (vends : List (String × VendorConfig)) (fs : FS)
    (hmk : ∀ p : FPath, env.mkdirFails p = false) (hcan : env.cancel = false) :
    ∃ out, initSubmodules env subs vends fs = .ok out ∧
      out.attempted = (((allProjects subs vends).filter
        (fun pr => !(submoduleExists fs pr.lpath))).filter env.selects).map Project.name := by
  unfold initSubmodules
  by_cases h1 : ((allProjects subs vends).filter
      (fun pr => !(submoduleExists fs pr.lpath))).isEmpty = true
  · rw [if_pos h1]
    have hnil : (allProjects subs vends).filter (fun pr => !(submoduleExists fs pr.lpath))
        = [] := List.isEmpty_iff.mp h1
    refine ⟨⟨fs, [], [], false⟩, rfl, ?_⟩
    rw [hnil]
    rfl
  · rw [if_neg h1, if_neg (by rw [hcan]; simp)]
    obtain ⟨f, ad, hr⟩ := runAdds_total hmk (((allProjects subs vends).filter
      (fun pr => !(submoduleExists fs pr.lpath))).filter env.selects) fs
    rw [hr]
    exact ⟨⟨f, _, ad, true⟩, rfl, rfl⟩

theorem init_add_failures_do_not_abort_witness :
    ∃ out, initSubmodules contEnv twoSubs [] emptyFS = .ok out
      ∧ out.attempted = ["a", "b"] := by
  obtain ⟨out, h1, h2⟩ := init_add_failures_do_not_abort contEnv twoSubs [] emptyFS
    (fun _ => rfl) rfl
  exact ⟨out, h1, h2.trans (by decide)⟩

/-- Claim C10: `init()` decides that a project is already registered by a
literal substring probe of `.gitmodules` for `path = <localPath>`: whenever
the manifest contains `path = q` for some registered entry and the project's
path `p` is a proper prefix of `q`, the probe answers true and the project is
classified as already existing, never offered for addition; and when no
`.gitmodules` exists at all, every configured project is classified as new. -/
theorem submodule_probe_substring (fs : FS) (subs : List (String × String))
    (vends : List (String × VendorConfig)) (p q content : String) :
    ((fs.lookupFile [".gitmodules"] = some content) →
      strHas content.data ("path = " ++ q).data = true →
      (∃ rem : String, ¬rem = "" ∧ q = p ++ rem) →
      submoduleExists fs p = true ∧
        ∀ pr ∈ allProjects subs vends, (pr : Project).lpath = p →
          pr ∉ (allProjects subs vends).filter (fun x => !(submoduleExists fs x.lpath)))
    ∧ (fs.existsB [".gitmodules"] = false →
        (allProjects subs vends).filter (fun x => !(submoduleExists fs x.lpath))
          = allProjects subs vends) := by
  constructor
  · intro hc hinc ⟨rem, hrne, hq⟩
    have hexists : fs.existsB [".gitmodules"] = true := by
      unfold FS.existsB FS.isFileB
      rw [hc]
      simp
    have hsub : submoduleExists fs p = true := by
      unfold submoduleExists
      rw [if_neg (by rw [hexists]; simp), hc]
      refine strHas_mono _ hinc ?_
      rw [hq, ← String.append_assoc, String.data_append]
      exact List.prefix_append _ _
    refine ⟨hsub, ?_⟩
    intro pr _ hlp hmem
    have := (List.mem_filter.mp hmem).2
    rw [hlp, hsub] at this
    simp at this
  · intro hno
    rw [List.filter_eq_self]
    intro pr _
    have hfalse : submoduleExists fs pr.lpath = false := by
      unfold submoduleExists
      rw [if_pos hno]
    rw [hfalse]
    rfl

theorem submodule_probe_substring_witness :
    (submoduleExists gmFS "vendor/foo" = true
      ∧ (⟨"foo", "u", "vendor", "vendor/foo"⟩ : Project)
          ∉ (allProjects [] fooVendors).filter (fun x => !(submoduleExists gmFS x.lpath)))
    ∧ (allProjects [] fooVendors).filter (fun x => !(submoduleExists emptyFS x.lpath))
        = allProjects [] fooVendors := by
  have h1 := (submodule_probe_substring gmFS [] fooVendors "vendor/foo" "vendor/foo-bar"
    "[submodule \"x\"]\n\tpath = vendor/foo-bar\n").1 rfl (by decide)
    ⟨"-bar", by decide, rfl⟩
  have h2 := (submodule_probe_substring emptyFS [] fooVendors "vendor/foo" "vendor/foo-bar"
    "").2 rfl
  exact ⟨⟨h1.1, h1.2 _ (by decide) rfl⟩, h2⟩

/-- Claim C6: if a configured pair's source skill directory is absent from the
updated vendor checkout, only that pair is skipped: provided the update step
leaves the published `skills/<out>` area untouched and no pair with an
existing source shares the output name, the existing `skills/<out>` directory
is left exactly as it was, file for file, and is not created when absent; the
pair is recorded as skipped, and every configured pair of this vendor and of
every other vendor whose directories exist is still processed. -/
theorem sync_missing_source_skips_pair
    (env : SyncEnv) {vends : List (String × VendorConfig)} {fs fs1 : FS}
    {pre post : List (String × VendorConfig)} {vn : String} {cfg : VendorConfig}
    {spre spost : List (String × String)} {sn outN : String}
    (hupd : env.update fs = some fs1)
    (hvends : vends = pre ++ (vn, cfg) :: post)
    (hskills : cfg.skills = spre ++ (sn, outN) :: spost)
    (hnd : NodupKeys fs1)
    (hvend : fs1.existsB (vendorPathOf vn) = true)
    (hvsk : fs1.existsB (vendorSkillsPathOf vn) = true)
    (hsrcm : fs1.existsB (srcPathOf vn sn) = false)
    (huniq : ∀ vc ∈ vends, ∀ pr ∈ (vc : String × VendorConfig).2.skills,
      (pr : String × String).2 = outN → fs1.existsB (srcPathOf vc.1 pr.1) = false)
    (hsk_area : AgreeOn (outKeep outN) fs fs1) :
    (∀ r, (syncSubmodules env vends fs).fs.lookupFile (outPathOf outN ++ r)
        = fs.lookupFile (outPathOf outN ++ r))
    ∧ (syncSubmodules env vends fs).fs.existsB (outPathOf outN) = fs.existsB (outPathOf outN)
    ∧ (syncSubmodules env vends fs).fs.isDirB (outPathOf outN) = fs.isDirB (outPathOf outN)
    ∧ (⟨vn, sn, outN, false⟩ : PairOutcome) ∈ (syncSubmodules env vends fs).outcomes
    ∧ (∀ vc ∈ vends, fs1.existsB (vendorPathOf (vc : String × VendorConfig).1) = true →
        fs1.existsB (vendorSkillsPathOf vc.1) = true →
        ∀ pr ∈ (vc : String × VendorConfig).2.skills,
          ∃ b, (⟨vc.1, pr.1, pr.2, b⟩ : PairOutcome)
            ∈ (syncSubmodules env vends fs).outcomes) := by
  obtain ⟨m1, m2, m3, m4, m5⟩ :=
    sync_skip_char env hupd hvends hskills hnd hvend hvsk hsrcm huniq
  refine ⟨?_, ?_, ?_, m4, m5⟩
  · intro r
    rw [m1 r, lookup_eq_of_outAgree hsk_area r]
  · rw [m2, exists_eq_of_outAgree hsk_area]
  · rw [m3, isDir_eq_of_outAgree hsk_area]

theorem sync_missing_source_skips_pair_witness :
    ((syncSubmodules idEnv skipVendors skipFS).fs.existsB (outPathOf "demo")
        = skipFS.existsB (outPathOf "demo")
      ∧ skipFS.existsB (outPathOf "demo") = false)
    ∧ (⟨"demo", "demo-skill", "demo", false⟩ : PairOutcome)
        ∈ (syncSubmodules idEnv skipVendors skipFS).outcomes
    ∧ (∃ b, (⟨"oth", "os", "oo", b⟩ : PairOutcome)
        ∈ (syncSubmodules idEnv skipVendors skipFS).outcomes) := by
  have h := @sync_missing_source_skips_pair idEnv skipVendors skipFS skipFS []
    [("oth", othCfg)] "demo" demoCfg [] [] "demo-skill" "demo" rfl rfl rfl
    (by unfold NodupKeys; decide) (by decide) (by decide) (by decide) (by decide)
    (AgreeOn.refl _)
  refine ⟨⟨h.2.1, by decide⟩, h.2.2.2.1, ?_⟩
  exact h.2.2.2.2 ("oth", othCfg) (by decide) (by decide) (by decide) ("os", "oo") (by decide)

/-- Claim C7: running `sync()` twice in a row with no upstream changes — the
second update leaves the vendor area exactly as the first run saw it and the
recorded commit hash is unchanged — produces byte-identical published output
for every processed pair at every path except `SYNC.md`, whose content is the
same fixed template with the stable SHA and the second run's date. -/
theorem sync_idempotent
    (env1 env2 : SyncEnv) {vends : List (String × VendorConfig)} {fs fs1 g2 : FS}
    {pre post : List (String × VendorConfig)} {vn : String} {cfg : VendorConfig}
    {spre spost : List (String × String)} {sn outN : String}
    (hupd1 : env1.update fs = some fs1)
    (hvends : vends = pre ++ (vn, cfg) :: post)
    (hskills : cfg.skills = spre ++ (sn, outN) :: spost)
    (hnd : NodupKeys fs1)
    (hvend : fs1.existsB (vendorPathOf vn) = true)
    (hvsk : fs1.existsB (vendorSkillsPathOf vn) = true)
    (hsrc : fs1.existsB (srcPathOf vn sn) = true)
    (hs0 : fs1.lookupFile (srcPathOf vn sn) = none)
    (huniqS : ∀ pr ∈ spost, (pr : String × String).2 ≠ outN)
    (huniqV : ∀ vc ∈ post, ∀ pr ∈ (vc : String × VendorConfig).2.skills,
      (pr : String × String).2 ≠ outN)
    (hupd2 : env2.update (syncSubmodules env1 vends fs).fs = some g2)
    (hvagree : AgreeOn vendKeep fs1 g2)
    (hnd2 : NodupKeys g2)
    (hsha : env2.gitSha (vendorPathOf vn) = env1.gitSha (vendorPathOf vn)) :
    (∀ r, r ≠ ["SYNC.md"] →
      (syncSubmodules env2 vends (syncSubmodules env1 vends fs).fs).fs.lookupFile
          (outPathOf outN ++ r)
        = (syncSubmodules env1 vends fs).fs.lookupFile (outPathOf outN ++ r))
    ∧ (syncSubmodules env2 vends (syncSubmodules env1 vends fs).fs).fs.lookupFile
        (outPathOf outN ++ ["SYNC.md"])
      = some (syncContent vn sn (env1.gitSha (vendorPathOf vn)) env2.today) := by
  have M1 := sync_main_char env1 hupd1 hvends hskills hnd hvend hvsk hsrc hs0 huniqS huniqV
  have hvend2 : g2.existsB (vendorPathOf vn) = true := by
    rw [exists_eq_of_vendAgree hvagree (vendKeep_vendorPath vn)]
    exact hvend
  have hvsk2 : g2.existsB (vendorSkillsPathOf vn) = true := by
    rw [exists_eq_of_vendAgree hvagree (vendKeep_vendorSkillsPath vn)]
    exact hvsk
  have hsrc2 : g2.existsB (srcPathOf vn sn) = true := by
    rw [exists_eq_of_vendAgree hvagree (vendKeep_srcPath vn sn)]
    exact hsrc
  have hs02 : g2.lookupFile (srcPathOf vn sn) = none := by
    rw [lookup_eq_of_vendAgree hvagree (vendKeep_srcPath vn sn)]
    exact hs0
  have M2 := sync_main_char env2 hupd2 hvends hskills hnd2 hvend2 hvsk2 hsrc2 hs02
    huniqS huniqV
  constructor
  · intro r hS
    by_cases hL : r = ["LICENSE.md"]
    · subst hL
      rw [M2.2.2, M1.2.2, findLicense_eq_of_vendAgree hvagree vn,
        lookup_eq_of_vendAgree hvagree (vendKeep_mono (vendKeep_srcPath vn sn)
          (ipo_self_append _ _))]
    · rw [M2.1 r hL hS, M1.1 r hL hS,
        lookup_eq_of_vendAgree hvagree (vendKeep_mono (vendKeep_srcPath vn sn)
          (ipo_self_append _ _))]
  · rw [M2.2.1, hsha]

theorem sync_idempotent_witness :
    (syncSubmodules idEnv demoVendors
        (syncSubmodules idEnv demoVendors demoFS).fs).fs.lookupFile
        (outPathOf "demo" ++ ["SKILL.md"])
      = (syncSubmodules idEnv demoVendors demoFS).fs.lookupFile
        (outPathOf "demo" ++ ["SKILL.md"]) := by
  have h := @sync_idempotent idEnv idEnv demoVendors demoFS demoFS
    (syncSubmodules idEnv demoVendors demoFS).fs [] [] "demo" demoCfg [] []
    "demo-skill" "demo" rfl rfl rfl (by unfold NodupKeys; decide) (by decide) (by decide)
    (by decide) (by decide) (fun pr hpr => absurd hpr (List.not_mem_nil _))
    (fun vc hvc => absurd hvc (List.not_mem_nil _)) rfl (by constructor <;> decide)
    (by unfold NodupKeys; decide) rfl
  exact h.1 ["SKILL.md"] (by decide)
